import Mathlib

/-!
Verification of the per-tick simulation core of the nmmo-environment
repository against its natural-language specification.

The Python sources embedded here:
  * nmmo/systems/exchange.py  (Exchange: sell / buy / step / listing helpers)
  * nmmo/systems/combat.py    (damage_multiplier / attack / danger / spawn)
  * nmmo/entity/player.py     (Player.receive_damage / Player.update)
  * nmmo/core/realm.py        (Realm.step / Realm.entity / prioritized)

Mutable Python objects become explicit records; object stores become
association lists keyed by integer ids; asserts and KeyError lookups become
`Except String`; Python ints are `Int`, Python floats produced by the combat
formulas are `ℚ` (all arithmetic reaching them is exact in the sources).
-/

namespace NmmoSpec

/-! ### Association-list helpers (Python dict / attribute stores) -/

variable {κ : Type} [DecidableEq κ] {α : Type}

/-- Lookup of the first binding of a key (Python `d.get(k)` / `d[k]`). -/
def alook (k : κ) : List (κ × α) → Option α
  | [] => none
  | (k₂, v) :: rest => if k₂ = k then some v else alook k rest

/-- Remove every binding of a key (Python `d.pop(k)` discarding the value). -/
def aremove (k : κ) (l : List (κ × α)) : List (κ × α) :=
  l.filter (fun p => p.1 ≠ k)

/-- Set a key to a value (Python `d[k] = v`). -/
def aset (k : κ) (v : α) (l : List (κ × α)) : List (κ × α) :=
  (k, v) :: aremove k l

/-- Update the value stored at a key in place (mutation of a stored object). -/
def aupd (k : κ) (f : α → α) (l : List (κ × α)) : List (κ × α) :=
  l.map (fun p => if p.1 = k then (k, f p.2) else p)

@[simp] theorem alook_nil (k : κ) : alook k ([] : List (κ × α)) = none := rfl

theorem alook_cons (k k₂ : κ) (v : α) (l : List (κ × α)) :
    alook k ((k₂, v) :: l) = if k₂ = k then some v else alook k l := rfl

theorem aremove_cons (k k₂ : κ) (v : α) (l : List (κ × α)) :
    aremove k ((k₂, v) :: l) =
      if k₂ = k then aremove k l else (k₂, v) :: aremove k l := by
  by_cases hk : k₂ = k <;> simp [aremove, List.filter_cons, hk]

theorem aupd_cons (k k₂ : κ) (f : α → α) (v : α) (l : List (κ × α)) :
    aupd k f ((k₂, v) :: l) =
      (if k₂ = k then (k, f v) else (k₂, v)) :: aupd k f l := by
  by_cases hk : k₂ = k <;> simp [aupd, hk]

@[simp] theorem alook_aremove_self (k : κ) (l : List (κ × α)) :
    alook k (aremove k l) = none := by
  induction l with
  | nil => rfl
  | cons p rest ih =>
    obtain ⟨k₂, v⟩ := p
    rw [aremove_cons]
    by_cases hk : k₂ = k
    · simpa [hk] using ih
    · simpa [alook_cons, hk] using ih

theorem alook_aremove_ne (k j : κ) (h : j ≠ k) (l : List (κ × α)) :
    alook j (aremove k l) = alook j l := by
  induction l with
  | nil => rfl
  | cons p rest ih =>
    obtain ⟨k₂, v⟩ := p
    rw [aremove_cons]
    by_cases hk : k₂ = k
    · have hkj : k₂ ≠ j := by rintro rfl; exact h hk
      have hkj₂ : k ≠ j := fun hh => h hh.symm
      simpa [alook_cons, hk, hkj, hkj₂] using ih
    · by_cases hj : k₂ = j
      · simp [alook_cons, hj, h]
      · simpa [alook_cons, hk, hj] using ih

@[simp] theorem alook_aset_self (k : κ) (v : α) (l : List (κ × α)) :
    alook k (aset k v l) = some v := by
  simp [aset, alook_cons]

theorem alook_aset_ne (k j : κ) (v : α) (h : j ≠ k) (l : List (κ × α)) :
    alook j (aset k v l) = alook j l := by
  have hkj : k ≠ j := fun hh => h hh.symm
  rw [aset, alook_cons, if_neg hkj]
  exact alook_aremove_ne k j h l

theorem alook_aupd_self (k : κ) (f : α → α) (l : List (κ × α)) :
    alook k (aupd k f l) = (alook k l).map f := by
  induction l with
  | nil => rfl
  | cons p rest ih =>
    obtain ⟨k₂, v⟩ := p
    rw [aupd_cons]
    by_cases hk : k₂ = k
    · simp [alook_cons, hk]
    · simpa [alook_cons, hk] using ih

theorem alook_aupd_ne (k j : κ) (f : α → α) (h : j ≠ k) (l : List (κ × α)) :
    alook j (aupd k f l) = alook j l := by
  induction l with
  | nil => rfl
  | cons p rest ih =>
    obtain ⟨k₂, v⟩ := p
    rw [aupd_cons]
    by_cases hk : k₂ = k
    · have hkj : k ≠ j := fun hh => h hh.symm
      have hk₂j : k₂ ≠ j := by rintro rfl; exact h hk
      simpa [alook_cons, hk, hkj, hk₂j] using ih
    · by_cases hj : k₂ = j
      · simp [alook_cons, hk, hj, h]
      · simpa [alook_cons, hk, hj] using ih

theorem alook_mem (k : κ) (v : α) (l : List (κ × α)) (h : alook k l = some v) :
    (k, v) ∈ l := by
  induction l with
  | nil => simp [alook] at h
  | cons p rest ih =>
    obtain ⟨k₂, w⟩ := p
    rw [alook_cons] at h
    by_cases hk : k₂ = k
    · subst hk; simp at h; subst h; exact List.mem_cons_self _ _
    · simp [hk] at h; exact List.mem_cons_of_mem _ (ih h)

/-! ### Exchange (nmmo/systems/exchange.py)

An `Item` carries its `quantity` and its mutable `listed_price` attribute
(`0` when unlisted, per the data model).  The global item registry and the
agents' inventories/gold are association lists, mirroring the Python object
stores.  `ItemListing` mirrors the class of the same name (the `item`
back-reference is the key of the listing entry). -/

structure ItemSt where
  quantity : Int
  listedPrice : Int
  deriving DecidableEq, Repr

structure AgentSt where
  gold : Int
  inv : List Nat
  capacity : Nat
  deriving DecidableEq, Repr

structure ItemListing where
  price : Int
  seller : Nat
  tick : Int
  deriving DecidableEq, Repr

/-- State of `Exchange` together with the item registry and the agents it
mutates: `queue` is `_listings_queue` (FIFO of `(item_id, tick)`),
`listings` is `_item_listings`. -/
structure ExchSt where
  queue : List (Nat × Int)
  listings : List (Nat × ItemListing)
  items : List (Nat × ItemSt)
  agents : List (Nat × AgentSt)
  deriving DecidableEq, Repr

/-- `Exchange._list_item`: set the item's listed price, overwrite the
listing, append `(item_id, tick)` to the FIFO queue. -/
def listItem (itemId : Nat) (seller : Nat) (price : Int) (tick : Int)
    (s : ExchSt) : ExchSt :=
  { s with
    items := aupd itemId (fun it => { it with listedPrice := price }) s.items
    listings := aset itemId ⟨price, seller, tick⟩ s.listings
    queue := s.queue ++ [(itemId, tick)] }

/-- `Exchange._unlist_item`: pop the listing and zero the item's listed
price.  (In the source the listing is assumed present at every call site;
an absent listing leaves the state unchanged here.) -/
def unlistItem (itemId : Nat) (s : ExchSt) : ExchSt :=
  match alook itemId s.listings with
  | none => s
  | some _ =>
      { s with
        listings := aremove itemId s.listings
        items := aupd itemId (fun it => { it with listedPrice := 0 }) s.items }

/-- `Exchange.unlist_item` (public, guarded variant). -/
def unlistItemChecked (itemId : Nat) (s : ExchSt) : ExchSt :=
  match alook itemId s.listings with
  | none => s
  | some _ => unlistItem itemId s

/-- `Exchange.sell`: asserts that the item is in the seller's inventory with
positive quantity, then lists it.  Assertion failures are `Except.error`. -/
def sell (seller : Nat) (itemId : Nat) (price : Int) (tick : Int)
    (s : ExchSt) : Except String ExchSt :=
  match alook seller s.agents, alook itemId s.items with
  | some ag, some it =>
      if itemId ∈ ag.inv then
        if it.quantity > 0 then
          .ok (listItem itemId seller price tick s)
        else .error "AssertionError: quantity"
      else .error "AssertionError: not in inventory"
  | _, _ => .error "missing object"

/-- The `while` loop of `Exchange.step`, structurally recursive on the
queue being consumed (`q` is the current `_listings_queue`). -/
def exchangeStepGo (dur : Int) (currentTick : Int) :
    List (Nat × Int) → ExchSt → ExchSt
  | [], s => { s with queue := [] }
  | (itemId, listingTick) :: rest, s =>
      if currentTick - listingTick ≤ dur then
        { s with queue := (itemId, listingTick) :: rest }
      else
        let s₁ := { s with queue := rest }
        match alook itemId s₁.listings with
        | some listing =>
            if currentTick - listing.tick > dur then
              exchangeStepGo dur currentTick rest (unlistItem itemId s₁)
            else
              exchangeStepGo dur currentTick rest s₁
        | none => exchangeStepGo dur currentTick rest s₁

/-- `Exchange.step(current_tick)` with `dur = EXCHANGE_LISTING_DURATION`. -/
def exchangeStep (dur : Int) (currentTick : Int) (s : ExchSt) : ExchSt :=
  exchangeStepGo dur currentTick s.queue s

/-- `Exchange.buy`: the listing lookup `self._item_listings[item_id]` raises
`KeyError` when absent, the quantity check is an `assert`; the space and
gold checks silently return.  On success the source unlists the item
*first* and then transfers `item.listed_price.val` — read *after* it was
reset to `0` — between the gold balances. -/
def buy (buyer : Nat) (itemId : Nat) (s : ExchSt) : Except String ExchSt :=
  match alook itemId s.listings with
  | none => .error "KeyError"
  | some listing =>
      match alook itemId s.items, alook buyer s.agents with
      | some it, some b =>
          if it.quantity ≠ 1 then .error "AssertionError: quantity"
          else if ¬ (b.inv.length < b.capacity) then .ok s
          else if ¬ (b.gold ≥ it.listedPrice) then .ok s
          else
            let s₁ := unlistItem itemId s
            let s₂ := { s₁ with
              agents := aupd listing.seller
                (fun a => { a with inv := a.inv.erase itemId }) s₁.agents }
            let s₃ := { s₂ with
              agents := aupd buyer
                (fun a => { a with inv := a.inv ++ [itemId] }) s₂.agents }
            let priceNow := ((alook itemId s₃.items).map ItemSt.listedPrice).getD 0
            let s₄ := { s₃ with
              agents := aupd buyer
                (fun a => { a with gold := a.gold - priceNow }) s₃.agents }
            let s₅ := { s₄ with
              agents := aupd listing.seller
                (fun a => { a with gold := a.gold + priceNow }) s₄.agents }
            .ok s₅
      | _, _ => .error "missing object"

/-! ### Exchange operation traces -/

/-- One external operation on the exchange. -/
inductive XOp where
  | sellOp (seller itemId : Nat) (price tick : Int)
  | buyOp (buyer itemId : Nat)
  | unlistOp (itemId : Nat)
  | stepOp (tick : Int)
  deriving DecidableEq, Repr

/-- Execute one operation. -/
def execXOp (dur : Int) (s : ExchSt) : XOp → Except String ExchSt
  | .sellOp seller itemId price tick => sell seller itemId price tick s
  | .buyOp buyer itemId => buy buyer itemId s
  | .unlistOp itemId => .ok (unlistItemChecked itemId s)
  | .stepOp tick => .ok (exchangeStep dur tick s)

/-- Execute a list of operations in order. -/
def execXOps (dur : Int) (s : ExchSt) : List XOp → Except String ExchSt
  | [] => .ok s
  | op :: rest => do
      let s₁ ← execXOp dur s op
      execXOps dur s₁ rest

/-! ### C5: the listing invariant -/

/-- Every stored item has a non-zero `listed_price` exactly when it has an
active listing (spec §3 / §8). -/
def listingInvariant (s : ExchSt) : Prop :=
  ∀ p ∈ s.items, (p.2.listedPrice ≠ 0 ↔ (alook p.1 s.listings).isSome = true)

instance (s : ExchSt) : Decidable (listingInvariant s) := by
  unfold listingInvariant; infer_instance

/-- The sell prices occurring in a trace are all non-zero. -/
def sellPricesNonzero (ops : List XOp) : Prop :=
  ∀ op ∈ ops, ∀ seller itemId price tick,
    op = XOp.sellOp seller itemId price tick → price ≠ 0

theorem mem_aupd_iff (k : κ) (f : α → α) (l : List (κ × α)) (p : κ × α) :
    p ∈ aupd k f l ↔ ∃ q ∈ l, (if q.1 = k then (k, f q.2) else q) = p := by
  simp [aupd, List.mem_map]

theorem listingInvariant_listItem (itemId seller : Nat) (price tick : Int)
    (s : ExchSt) (hinv : listingInvariant s) (hp : price ≠ 0) :
    listingInvariant (listItem itemId seller price tick s) := by
  intro p hpmem
  simp only [listItem] at hpmem ⊢
  rw [mem_aupd_iff] at hpmem
  obtain ⟨q, hq, hpq⟩ := hpmem
  subst hpq
  by_cases hk : q.1 = itemId
  · rw [if_pos hk]
    dsimp only
    rw [alook_aset_self]
    simpa using hp
  · rw [if_neg hk]
    rw [alook_aset_ne itemId q.1 _ hk]
    exact hinv q hq

theorem listingInvariant_unlistItem (itemId : Nat) (s : ExchSt)
    (hinv : listingInvariant s) :
    listingInvariant (unlistItem itemId s) := by
  unfold unlistItem
  split
  · exact hinv
  · intro p hpmem
    dsimp only at hpmem ⊢
    rw [mem_aupd_iff] at hpmem
    obtain ⟨q, hq, hpq⟩ := hpmem
    subst hpq
    by_cases hk : q.1 = itemId
    · rw [if_pos hk]
      dsimp only
      rw [alook_aremove_self]
      simp
    · rw [if_neg hk]
      rw [alook_aremove_ne itemId q.1 hk]
      exact hinv q hq

theorem listingInvariant_unlistItemChecked (itemId : Nat) (s : ExchSt)
    (hinv : listingInvariant s) :
    listingInvariant (unlistItemChecked itemId s) := by
  unfold unlistItemChecked
  cases alook itemId s.listings
  · exact hinv
  · exact listingInvariant_unlistItem itemId s hinv

theorem listingInvariant_sell (seller itemId : Nat) (price tick : Int)
    (s s' : ExchSt) (hinv : listingInvariant s) (hp : price ≠ 0)
    (h : sell seller itemId price tick s = .ok s') :
    listingInvariant s' := by
  unfold sell at h
  split at h
  · split at h
    · split at h
      · cases h
        exact listingInvariant_listItem itemId seller price tick s hinv hp
      · cases h
    · cases h
  · cases h

theorem listingInvariant_buy (buyer itemId : Nat) (s s' : ExchSt)
    (hinv : listingInvariant s) (h : buy buyer itemId s = .ok s') :
    listingInvariant s' := by
  unfold buy at h
  split at h
  · cases h
  · split at h
    · split at h
      · cases h
      · split at h
        · cases h; exact hinv
        · split at h
          · cases h; exact hinv
          · cases h
            exact fun p hp₂ => listingInvariant_unlistItem itemId s hinv p hp₂
    · cases h

theorem listingInvariant_stepGo (dur t : Int) (q : List (Nat × Int))
    (s : ExchSt) (hinv : listingInvariant s) :
    listingInvariant (exchangeStepGo dur t q s) := by
  induction q generalizing s with
  | nil => exact hinv
  | cons e rest ih =>
    obtain ⟨itemId, listingTick⟩ := e
    rw [exchangeStepGo]
    split
    · exact hinv
    · dsimp only
      split
      · split
        · exact ih _ (listingInvariant_unlistItem itemId _ hinv)
        · exact ih _ hinv
      · exact ih _ hinv

/-- C5 (amended form): provided every `sell` in the trace carries a non-zero
price, the listing invariant is preserved all along. -/
theorem listingInvariant_execXOps (dur : Int) (ops : List XOp)
    (s s' : ExchSt) (hinv : listingInvariant s)
    (hnz : sellPricesNonzero ops) (h : execXOps dur s ops = .ok s') :
    listingInvariant s' := by
  induction ops generalizing s with
  | nil => cases h; exact hinv
  | cons op rest ih =>
    rw [execXOps] at h
    cases hstep : execXOp dur s op with
    | error e => rw [hstep] at h; cases h
    | ok s₁ =>
      rw [hstep] at h
      have hnz₁ : sellPricesNonzero rest := by
        intro o ho; exact hnz o (List.mem_cons_of_mem _ ho)
      have hinv₁ : listingInvariant s₁ := by
        cases op with
        | sellOp seller itemId price tick =>
          have hp : price ≠ 0 :=
            hnz _ (List.mem_cons_self _ _) seller itemId price tick rfl
          exact listingInvariant_sell seller itemId price tick s s₁ hinv hp hstep
        | buyOp buyer itemId =>
          exact listingInvariant_buy buyer itemId s s₁ hinv hstep
        | unlistOp itemId =>
          cases hstep
          exact listingInvariant_unlistItemChecked itemId s hinv
        | stepOp tick =>
          cases hstep
          exact listingInvariant_stepGo dur tick s.queue s hinv
      exact ih s₁ hinv₁ hnz₁ h

/-! ### C2: lazy eviction of expired listings

The bundle of facts making the lazy `step` scan correct:
the queue's ticks are non-decreasing (`QSorted`), every active listing's
`(item_id, tick)` pair sits in the queue (`LInQueue`), all queue ticks are
bounded by the last sell tick (`QBound`), and every listed item has a
registry record (`LItem`). -/

def QSorted (s : ExchSt) : Prop :=
  List.Sorted (· ≤ ·) (s.queue.map Prod.snd)

def LInQueue (s : ExchSt) : Prop :=
  ∀ i ls, alook i s.listings = some ls → (i, ls.tick) ∈ s.queue

def QBound (m : Int) (s : ExchSt) : Prop :=
  ∀ e ∈ s.queue, e.2 ≤ m

def LItem (s : ExchSt) : Prop :=
  ∀ i ls, alook i s.listings = some ls → (alook i s.items).isSome = true

/-- The sell operations of a trace occur at ticks that never decrease,
starting no earlier than `m`. -/
def SellsMonoFrom (m : Int) : List XOp → Prop
  | [] => True
  | XOp.sellOp _ _ _ tick :: rest => m ≤ tick ∧ SellsMonoFrom tick rest
  | _ :: rest => SellsMonoFrom m rest

/-- `exchangeStepGo` never removes a listing that is not expired at
`currentTick`, and leaves the listed price of its item alone. -/
theorem stepGo_keeps_unexpired (dur t : Int) (q : List (Nat × Int))
    (s : ExchSt) (i : Nat) (ls : ItemListing)
    (hls : alook i s.listings = some ls) (hfresh : t - ls.tick ≤ dur) :
    alook i (exchangeStepGo dur t q s).listings = some ls ∧
      (alook i (exchangeStepGo dur t q s).items) = alook i s.items := by
  induction q generalizing s with
  | nil => exact ⟨hls, rfl⟩
  | cons e rest ih =>
    obtain ⟨j, tk⟩ := e
    rw [exchangeStepGo]
    split
    · exact ⟨hls, rfl⟩
    · dsimp only
      split
      · rename_i listing hlj
        split
        · rename_i hexp
          have hji : j ≠ i := by
            rintro rfl
            rw [hls] at hlj
            cases hlj
            omega
          have h₁ : alook i (unlistItem j { s with queue := rest }).listings
              = some ls := by
            unfold unlistItem
            split
            · exact hls
            · dsimp only
              rw [alook_aremove_ne j i (fun hh => hji hh.symm)]
              exact hls
          have h₂ : alook i (unlistItem j { s with queue := rest }).items
              = alook i s.items := by
            unfold unlistItem
            split
            · rfl
            · dsimp only
              exact alook_aupd_ne j i _ (fun hh => hji hh.symm) s.items
          obtain ⟨ha, hb⟩ := ih _ h₁
          exact ⟨ha, hb.trans h₂⟩
        · exact ih _ hls
      · exact ih _ hls

/-- Once a listing is gone, `exchangeStepGo` never resurrects it and never
touches its item again. -/
theorem stepGo_absent_frozen (dur t : Int) (q : List (Nat × Int))
    (s : ExchSt) (i : Nat) (hnone : alook i s.listings = none) :
    alook i (exchangeStepGo dur t q s).listings = none ∧
      (alook i (exchangeStepGo dur t q s).items) = alook i s.items := by
  induction q generalizing s with
  | nil => exact ⟨hnone, rfl⟩
  | cons e rest ih =>
    obtain ⟨j, tk⟩ := e
    rw [exchangeStepGo]
    split
    · exact ⟨hnone, rfl⟩
    · dsimp only
      split
      · rename_i listing hlj
        have hji : j ≠ i := by
          rintro rfl
          rw [hnone] at hlj
          cases hlj
        split
        · have h₁ : alook i (unlistItem j { s with queue := rest }).listings
              = none := by
            unfold unlistItem
            split
            · exact hnone
            · dsimp only
              rw [alook_aremove_ne j i (fun hh => hji hh.symm)]
              exact hnone
          have h₂ : alook i (unlistItem j { s with queue := rest }).items
              = alook i s.items := by
            unfold unlistItem
            split
            · rfl
            · dsimp only
              exact alook_aupd_ne j i _ (fun hh => hji hh.symm) s.items
          obtain ⟨ha, hb⟩ := ih _ h₁
          exact ⟨ha, hb.trans h₂⟩
        · exact ih _ hnone
      · exact ih _ hnone

/-- `exchangeStepGo` always evicts a listing that is expired at
`currentTick`, resetting its item's listed price to `0`, provided the
listing's queue entry is among the pending queue entries and the queue
ticks are sorted. -/
theorem stepGo_evicts_expired (dur t : Int) (q : List (Nat × Int))
    (s : ExchSt) (i : Nat) (ls : ItemListing)
    (hsorted : List.Sorted (· ≤ ·) (q.map Prod.snd))
    (hmem : (i, ls.tick) ∈ q)
    (hls : alook i s.listings = some ls)
    (hit : (alook i s.items).isSome = true)
    (hexp : t - ls.tick > dur) :
    alook i (exchangeStepGo dur t q s).listings = none ∧
      (alook i (exchangeStepGo dur t q s).items).map ItemSt.listedPrice
        = some 0 := by
  induction q generalizing s with
  | nil => cases hmem
  | cons e rest ih =>
    obtain ⟨j, tk⟩ := e
    rw [exchangeStepGo]
    split
    · rename_i hbreak
      exfalso
      rcases List.mem_cons.mp hmem with hhead | htail
      · cases hhead
        omega
      · have : tk ≤ ls.tick := by
          have := (List.sorted_cons.mp hsorted).1
          exact this ls.tick (List.mem_map_of_mem Prod.snd htail)
        omega
    · dsimp only
      by_cases hji : j = i
      · subst hji
        rw [hls]
        dsimp only
        rw [if_pos hexp]
        have hnone : alook j (unlistItem j { s with queue := rest }).listings
            = none := by
          unfold unlistItem
          split
          · rename_i hcontra
            rw [hls] at hcontra
            cases hcontra
          · dsimp only
            exact alook_aremove_self j s.listings
        have hzero : (alook j (unlistItem j { s with queue := rest }).items).map
            ItemSt.listedPrice = some 0 := by
          unfold unlistItem
          split
          · rename_i hcontra
            rw [hls] at hcontra
            cases hcontra
          · dsimp only
            rw [alook_aupd_self]
            obtain ⟨v, hv⟩ := Option.isSome_iff_exists.mp hit
            rw [hv]
            rfl
        obtain ⟨ha, hb⟩ := stepGo_absent_frozen dur t rest _ j hnone
        exact ⟨ha, by rw [hb]; exact hzero⟩
      · have htail : (i, ls.tick) ∈ rest := by
          rcases List.mem_cons.mp hmem with hhead | htail
          · cases hhead; exact absurd rfl hji
          · exact htail
        have hsorted' : List.Sorted (· ≤ ·) (rest.map Prod.snd) :=
          (List.sorted_cons.mp hsorted).2
        split
        · rename_i listing hlj
          split
          · have h₁ : alook i (unlistItem j { s with queue := rest }).listings
                = some ls := by
              unfold unlistItem
              split
              · exact hls
              · dsimp only
                rw [alook_aremove_ne j i (fun hh => hji hh.symm)]
                exact hls
            have h₂ : (alook i (unlistItem j { s with queue := rest }).items).isSome
                = true := by
              unfold unlistItem
              split
              · exact hit
              · dsimp only
                rw [alook_aupd_ne j i _ (fun hh => hji hh.symm)]
                exact hit
            exact ih _ hsorted' htail h₁ h₂
          · exact ih _ hsorted' htail hls hit
        · exact ih _ hsorted' htail hls hit

/-- The queue left by the scan is a sublist (in fact a suffix) of the queue
it was given. -/
theorem stepGo_queue_sublist (dur t : Int) (q : List (Nat × Int))
    (s : ExchSt) : (exchangeStepGo dur t q s).queue.Sublist q := by
  induction q generalizing s with
  | nil => exact List.Sublist.refl _
  | cons e rest ih =>
    obtain ⟨j, tk⟩ := e
    rw [exchangeStepGo]
    split
    · exact List.Sublist.refl _
    · dsimp only
      split
      · split
        · exact List.Sublist.cons _ (ih _)
        · exact List.Sublist.cons _ (ih _)
      · exact List.Sublist.cons _ (ih _)

/-- The scan only removes listings, never adds or modifies them. -/
theorem stepGo_listings_mono (dur t : Int) (q : List (Nat × Int))
    (s : ExchSt) (i : Nat) (ls : ItemListing)
    (h : alook i (exchangeStepGo dur t q s).listings = some ls) :
    alook i s.listings = some ls := by
  induction q generalizing s with
  | nil => exact h
  | cons e rest ih =>
    obtain ⟨j, tk⟩ := e
    rw [exchangeStepGo] at h
    split at h
    · exact h
    · dsimp only at h
      split at h
      · split at h
        · have h₁ := ih _ h
          unfold unlistItem at h₁
          split at h₁
          · exact h₁
          · dsimp only at h₁
            by_cases hji : j = i
            · subst hji
              rw [alook_aremove_self] at h₁
              cases h₁
            · rw [alook_aremove_ne j i (fun hh => hji hh.symm)] at h₁
              exact h₁
        · exact ih { s with queue := rest } h
      · exact ih { s with queue := rest } h

/-- The scan never creates or deletes item registry records. -/
theorem stepGo_items_isSome (dur t : Int) (q : List (Nat × Int))
    (s : ExchSt) (i : Nat) :
    (alook i (exchangeStepGo dur t q s).items).isSome
      = (alook i s.items).isSome := by
  induction q generalizing s with
  | nil => rfl
  | cons e rest ih =>
    obtain ⟨j, tk⟩ := e
    rw [exchangeStepGo]
    split
    · rfl
    · dsimp only
      split
      · split
        · rw [ih]
          unfold unlistItem
          split
          · rfl
          · dsimp only
            by_cases hji : j = i
            · subst hji
              rw [alook_aupd_self]
              cases alook j s.items <;> rfl
            · rw [alook_aupd_ne j i _ (fun hh => hji hh.symm)]
        · exact ih _
      · exact ih _

/-- The scan keeps `LInQueue` (surviving listings still have their queue
entries among the remaining queue), provided the ticks were sorted and the
state's queue is the scanned queue. -/
theorem stepGo_LInQueue (dur t : Int) (q : List (Nat × Int)) (s : ExchSt)
    (hq : s.queue = q)
    (hsorted : List.Sorted (· ≤ ·) (q.map Prod.snd))
    (hlin : LInQueue s) :
    LInQueue (exchangeStepGo dur t q s) := by
  induction q generalizing s with
  | nil =>
    intro i ls hls
    have := hlin i ls hls
    rw [hq] at this
    cases this
  | cons e rest ih =>
    obtain ⟨j, tk⟩ := e
    rw [exchangeStepGo]
    split
    · rename_i hbreak
      intro i ls hls
      have := hlin i ls hls
      rw [hq] at this
      exact this
    · rename_i hpop
      dsimp only
      have hsorted' : List.Sorted (· ≤ ·) (rest.map Prod.snd) :=
        (List.sorted_cons.mp hsorted).2
      split
      · rename_i listing hlj
        split
        · rename_i hexp
          refine ih (unlistItem j { s with queue := rest }) ?_ hsorted' ?_
          · unfold unlistItem
            split
            · rfl
            · rfl
          · intro i ls hls
            have hji : j ≠ i := by
              rintro rfl
              unfold unlistItem at hls
              split at hls
              · rename_i hnone
                rw [hnone] at hlj
                cases hlj
              · dsimp only at hls
                rw [alook_aremove_self] at hls
                cases hls
            have hls₀ : alook i s.listings = some ls := by
              unfold unlistItem at hls
              split at hls
              · exact hls
              · dsimp only at hls
                rw [alook_aremove_ne j i (fun hh => hji hh.symm)] at hls
                exact hls
            have hmem := hlin i ls hls₀
            rw [hq] at hmem
            have hqueue : (unlistItem j { s with queue := rest }).queue
                = rest := by
              unfold unlistItem
              split
              · rfl
              · rfl
            rw [hqueue]
            rcases List.mem_cons.mp hmem with hhead | htail
            · cases hhead
              exact absurd rfl hji
            · exact htail
        · rename_i hnexp
          refine ih { s with queue := rest } rfl hsorted' ?_
          intro i ls hls
          have hmem := hlin i ls hls
          rw [hq] at hmem
          rcases List.mem_cons.mp hmem with hhead | htail
          · injection hhead with h₁ h₂
            subst h₁
            rw [hls] at hlj
            cases hlj
            omega
          · exact htail
      · rename_i hlnone
        refine ih { s with queue := rest } rfl hsorted' ?_
        intro i ls hls
        have hmem := hlin i ls hls
        rw [hq] at hmem
        rcases List.mem_cons.mp hmem with hhead | htail
        · injection hhead with h₁ h₂
          subst h₁
          rw [hls] at hlnone
          cases hlnone
        · exact htail

/-! ### C2: preservation of the invariant bundle over traces -/

/-- Invariant bundle carried along an exchange trace, with `m` an upper
bound on the ticks already in the queue. -/
def ExchInv (m : Int) (s : ExchSt) : Prop :=
  QSorted s ∧ LInQueue s ∧ QBound m s ∧ LItem s

theorem exchInv_listItem (itemId seller : Nat) (price tick m : Int)
    (s : ExchSt) (hinv : ExchInv m s) (htick : m ≤ tick)
    (hit : (alook itemId s.items).isSome = true) :
    ExchInv tick (listItem itemId seller price tick s) := by
  obtain ⟨hsort, hlin, hbound, hlitem⟩ := hinv
  refine ⟨?_, ?_, ?_, ?_⟩
  · unfold QSorted at hsort
    unfold QSorted listItem
    dsimp only
    rw [List.map_append]
    refine List.pairwise_append.mpr ⟨hsort, List.pairwise_singleton _ _, ?_⟩
    intro a ha b hb
    simp only [List.map_cons, List.map_nil, List.mem_singleton] at hb
    subst hb
    obtain ⟨e, he, hea⟩ := List.mem_map.mp ha
    have := hbound e he
    omega
  · intro i ls hls
    unfold listItem at hls ⊢
    dsimp only at hls ⊢
    by_cases hk : i = itemId
    · subst hk
      rw [alook_aset_self] at hls
      cases hls
      exact List.mem_append_right _ (List.mem_singleton.mpr rfl)
    · rw [alook_aset_ne itemId i _ hk] at hls
      exact List.mem_append_left _ (hlin i ls hls)
  · intro e he
    unfold listItem at he
    dsimp only at he
    rcases List.mem_append.mp he with hin | hnew
    · have := hbound e hin
      omega
    · rw [List.mem_singleton] at hnew
      subst hnew
      exact le_refl _
  · intro i ls hls
    unfold listItem at hls ⊢
    dsimp only at hls ⊢
    by_cases hk : i = itemId
    · subst hk
      rw [alook_aupd_self]
      cases hfind : alook i s.items with
      | none => rw [hfind] at hit; cases hit
      | some it => rfl
    · rw [alook_aset_ne itemId i _ hk] at hls
      rw [alook_aupd_ne itemId i _ hk]
      exact hlitem i ls hls

theorem exchInv_unlistItem (itemId : Nat) (m : Int) (s : ExchSt)
    (hinv : ExchInv m s) : ExchInv m (unlistItem itemId s) := by
  obtain ⟨hsort, hlin, hbound, hlitem⟩ := hinv
  unfold unlistItem
  split
  · exact ⟨hsort, hlin, hbound, hlitem⟩
  · refine ⟨hsort, ?_, hbound, ?_⟩
    · intro i ls hls
      dsimp only at hls ⊢
      by_cases hk : i = itemId
      · subst hk
        rw [alook_aremove_self] at hls
        cases hls
      · rw [alook_aremove_ne itemId i hk] at hls
        exact hlin i ls hls
    · intro i ls hls
      dsimp only at hls ⊢
      by_cases hk : i = itemId
      · subst hk
        rw [alook_aremove_self] at hls
        cases hls
      · rw [alook_aremove_ne itemId i hk] at hls
        rw [alook_aupd_ne itemId i _ hk]
        exact hlitem i ls hls

theorem exchInv_stepGo (dur t m : Int) (s : ExchSt) (hinv : ExchInv m s) :
    ExchInv m (exchangeStepGo dur t s.queue s) := by
  obtain ⟨hsort, hlin, hbound, hlitem⟩ := hinv
  refine ⟨?_, ?_, ?_, ?_⟩
  · unfold QSorted at hsort ⊢
    exact List.Pairwise.sublist
      (List.Sublist.map _ (stepGo_queue_sublist dur t s.queue s)) hsort
  · exact stepGo_LInQueue dur t s.queue s rfl hsort hlin
  · intro e he
    exact hbound e ((stepGo_queue_sublist dur t s.queue s).mem he)
  · intro i ls hls
    rw [stepGo_items_isSome]
    exact hlitem i ls (stepGo_listings_mono dur t s.queue s i ls hls)

theorem exchInv_sell (seller itemId : Nat) (price tick m : Int)
    (s s' : ExchSt) (hinv : ExchInv m s) (htick : m ≤ tick)
    (h : sell seller itemId price tick s = .ok s') :
    ExchInv tick s' := by
  unfold sell at h
  split at h
  · rename_i ag it hag hit
    split at h
    · split at h
      · cases h
        exact exchInv_listItem itemId seller price tick m s hinv htick
          (by rw [hit]; rfl)
      · cases h
    · cases h
  · cases h

theorem exchInv_buy (buyer itemId : Nat) (m : Int) (s s' : ExchSt)
    (hinv : ExchInv m s) (h : buy buyer itemId s = .ok s') :
    ExchInv m s' := by
  unfold buy at h
  split at h
  · cases h
  · split at h
    · split at h
      · cases h
      · split at h
        · cases h; exact hinv
        · split at h
          · cases h; exact hinv
          · cases h
            obtain ⟨hsort, hlin, hbound, hlitem⟩ :=
              exchInv_unlistItem itemId m s hinv
            refine ⟨hsort, hlin, hbound, ?_⟩
            intro i ls hls
            exact hlitem i ls hls
    · cases h

theorem exchInv_unlistItemChecked (itemId : Nat) (m : Int) (s : ExchSt)
    (hinv : ExchInv m s) : ExchInv m (unlistItemChecked itemId s) := by
  unfold unlistItemChecked
  split
  · exact hinv
  · exact exchInv_unlistItem itemId m s hinv

/-- The invariant bundle survives any trace whose sells happen at
non-decreasing ticks. -/
theorem exchInv_execXOps (dur : Int) (ops : List XOp) (m : Int)
    (s s' : ExchSt) (hinv : ExchInv m s) (hmono : SellsMonoFrom m ops)
    (h : execXOps dur s ops = .ok s') :
    ∃ m₂, ExchInv m₂ s' := by
  induction ops generalizing m s with
  | nil => cases h; exact ⟨m, hinv⟩
  | cons op rest ih =>
    rw [execXOps] at h
    cases hstep : execXOp dur s op with
    | error e => rw [hstep] at h; cases h
    | ok s₁ =>
      rw [hstep] at h
      cases op with
      | sellOp seller itemId price tick =>
        obtain ⟨hle, hmono'⟩ := hmono
        exact ih tick s₁
          (exchInv_sell seller itemId price tick m s s₁ hinv hle hstep)
          hmono' h
      | buyOp buyer itemId =>
        exact ih m s₁ (exchInv_buy buyer itemId m s s₁ hinv hstep) hmono h
      | unlistOp itemId =>
        cases hstep
        exact ih m _ (exchInv_unlistItemChecked itemId m s hinv) hmono h
      | stepOp tick =>
        cases hstep
        exact ih m _ (exchInv_stepGo dur tick m s hinv) hmono h

/-! ### C2: the live listing's tick is the most recent sell tick -/

/-- Tick of the last `sell` for item `i` in a trace (`acc` seeds the value
carried in from before the trace). -/
def lastSellFrom (i : Nat) (acc : Option Int) : List XOp → Option Int
  | [] => acc
  | XOp.sellOp _ j _ tk :: rest =>
      lastSellFrom i (if j = i then some tk else acc) rest
  | XOp.buyOp _ _ :: rest => lastSellFrom i acc rest
  | XOp.unlistOp _ :: rest => lastSellFrom i acc rest
  | XOp.stepOp _ :: rest => lastSellFrom i acc rest

theorem lastSellFrom_acc (i : Nat) (ops : List XOp) : ∀ acc : Option Int,
    lastSellFrom i acc ops = (lastSellFrom i none ops).elim acc some := by
  induction ops with
  | nil => intro acc; rfl
  | cons op rest ih =>
    intro acc
    cases op with
    | sellOp seller j price tk =>
      by_cases hj : j = i
      · rw [lastSellFrom, lastSellFrom, if_pos hj, if_pos hj, ih (some tk)]
        cases lastSellFrom i none rest <;> rfl
      · rw [lastSellFrom, lastSellFrom, if_neg hj, if_neg hj, ih acc]
    | buyOp buyer j => rw [lastSellFrom, lastSellFrom]; exact ih acc
    | unlistOp j => rw [lastSellFrom, lastSellFrom]; exact ih acc
    | stepOp tk => rw [lastSellFrom, lastSellFrom]; exact ih acc

theorem buy_listings_shrink (buyer itemId : Nat) (s s₁ : ExchSt)
    (h : buy buyer itemId s = .ok s₁) (i : Nat) (ls : ItemListing)
    (hls : alook i s₁.listings = some ls) : alook i s.listings = some ls := by
  unfold buy at h
  split at h
  · cases h
  · split at h
    · split at h
      · cases h
      · split at h
        · cases h; exact hls
        · split at h
          · cases h; exact hls
          · cases h
            dsimp only at hls
            unfold unlistItem at hls
            split at hls
            · exact hls
            · dsimp only at hls
              by_cases hk : i = itemId
              · subst hk
                rw [alook_aremove_self] at hls
                cases hls
              · rw [alook_aremove_ne itemId i hk] at hls
                exact hls
    · cases h

theorem unlistChecked_listings_shrink (itemId : Nat) (s : ExchSt) (i : Nat)
    (ls : ItemListing)
    (hls : alook i (unlistItemChecked itemId s).listings = some ls) :
    alook i s.listings = some ls := by
  unfold unlistItemChecked at hls
  split at hls
  · exact hls
  · unfold unlistItem at hls
    split at hls
    · exact hls
    · dsimp only at hls
      by_cases hk : i = itemId
      · subst hk
        rw [alook_aremove_self] at hls
        cases hls
      · rw [alook_aremove_ne itemId i hk] at hls
        exact hls

/-- A listing alive after a trace carries exactly the tick of the trace's
most recent `sell` for its item (or predates the trace if no such sell
exists). -/
theorem listing_tick_eq_lastSell (dur : Int) (ops : List XOp) :
    ∀ s s' : ExchSt, execXOps dur s ops = .ok s' →
      ∀ i ls, alook i s'.listings = some ls →
        lastSellFrom i none ops = some ls.tick ∨
          (lastSellFrom i none ops = none ∧ alook i s.listings = some ls) := by
  induction ops with
  | nil =>
    intro s s' h i ls hls
    cases h
    exact Or.inr ⟨rfl, hls⟩
  | cons op rest ih =>
    intro s s' h i ls hls
    rw [execXOps] at h
    cases hstep : execXOp dur s op with
    | error e => rw [hstep] at h; cases h
    | ok s₁ =>
      rw [hstep] at h
      cases op with
      | sellOp seller j price tk =>
        rcases ih s₁ s' h i ls hls with hleft | ⟨hnone, hs₁⟩
        · left
          rw [lastSellFrom, lastSellFrom_acc]
          rw [hleft]
          rfl
        · -- no later sell for i: the listing comes from this op or earlier
          have hsell : sell seller j price tk s = .ok s₁ := hstep
          unfold sell at hsell
          split at hsell
          · split at hsell
            · split at hsell
              · cases hsell
                unfold listItem at hs₁
                dsimp only at hs₁
                by_cases hj : j = i
                · subst hj
                  rw [alook_aset_self] at hs₁
                  cases hs₁
                  left
                  rw [lastSellFrom, if_pos rfl, lastSellFrom_acc, hnone]
                  rfl
                · rw [alook_aset_ne j i _ (fun hh => hj hh.symm)] at hs₁
                  right
                  refine ⟨?_, hs₁⟩
                  rw [lastSellFrom, if_neg hj, lastSellFrom_acc, hnone]
                  rfl
              · cases hsell
            · cases hsell
          · cases hsell
      | buyOp buyer j =>
        rcases ih s₁ s' h i ls hls with hleft | ⟨hnone, hs₁⟩
        · left
          rw [lastSellFrom, lastSellFrom_acc, hleft]
          rfl
        · right
          refine ⟨?_, buy_listings_shrink buyer j s s₁ hstep i ls hs₁⟩
          rw [lastSellFrom, lastSellFrom_acc, hnone]
          rfl
      | unlistOp j =>
        cases hstep
        rcases ih _ s' h i ls hls with hleft | ⟨hnone, hs₁⟩
        · left
          rw [lastSellFrom, lastSellFrom_acc, hleft]
          rfl
        · right
          refine ⟨?_, unlistChecked_listings_shrink j s i ls hs₁⟩
          rw [lastSellFrom, lastSellFrom_acc, hnone]
          rfl
      | stepOp tk =>
        cases hstep
        rcases ih _ s' h i ls hls with hleft | ⟨hnone, hs₁⟩
        · left
          rw [lastSellFrom, lastSellFrom_acc, hleft]
          rfl
        · right
          refine ⟨?_, stepGo_listings_mono dur tk s.queue s i ls hs₁⟩
          rw [lastSellFrom, lastSellFrom_acc, hnone]
          rfl

/-- An exchange as `Exchange.__init__` leaves it: empty queue and no
listings, over a given item registry and agent population. -/
def initExch (items : List (Nat × ItemSt)) (agents : List (Nat × AgentSt)) :
    ExchSt :=
  ⟨[], [], items, agents⟩

theorem exchInv_initExch (m : Int) (items : List (Nat × ItemSt))
    (agents : List (Nat × AgentSt)) : ExchInv m (initExch items agents) := by
  refine ⟨List.Pairwise.nil, ?_, ?_, ?_⟩
  · intro i ls hls; cases hls
  · intro e he; cases he
  · intro i ls hls; cases hls

/-- C2: after any trace of exchange operations whose sells occur at
non-decreasing ticks (buys, unlists and earlier steps may be interleaved,
so the FIFO queue may hold stale entries for re-listed or already-purchased
items), a live listing's tick is its item's most recent sell tick, and a
subsequent `Exchange.step(t)` keeps the listing exactly when
`t - tick ≤ EXCHANGE_LISTING_DURATION` and otherwise removes it and resets
the item's listed price to `0`. -/
theorem exchange_step_expiry (dur : Int) (items : List (Nat × ItemSt))
    (agents : List (Nat × AgentSt)) (ops : List XOp) (m t : Int)
    (s : ExchSt) (i : Nat) (ls : ItemListing)
    (hmono : SellsMonoFrom m ops)
    (hexec : execXOps dur (initExch items agents) ops = .ok s)
    (hls : alook i s.listings = some ls) :
    lastSellFrom i none ops = some ls.tick ∧
      (t - ls.tick ≤ dur →
        alook i (exchangeStep dur t s).listings = some ls) ∧
      (t - ls.tick > dur →
        alook i (exchangeStep dur t s).listings = none ∧
          (alook i (exchangeStep dur t s).items).map ItemSt.listedPrice
            = some 0) := by
  obtain ⟨m₂, hsort, hlin, hbound, hlitem⟩ :=
    exchInv_execXOps dur ops m (initExch items agents) s
      (exchInv_initExch m items agents) hmono hexec
  refine ⟨?_, ?_, ?_⟩
  · rcases listing_tick_eq_lastSell dur ops (initExch items agents) s hexec
        i ls hls with hleft | ⟨hnone, hcontra⟩
    · exact hleft
    · cases hcontra
  · intro hfresh
    exact (stepGo_keeps_unexpired dur t s.queue s i ls hls hfresh).1
  · intro hexp
    exact stepGo_evicts_expired dur t s.queue s i ls hsort
      (hlin i ls hls) hls (hlitem i ls hls) hexp

/-- C2 witness: the spec §8 scenario — item 7 listed at tick 0 for
price 100, duration 50 — evaluated concretely. -/
theorem exchange_step_expiry_witness :
    lastSellFrom 7 none [XOp.sellOp 1 7 100 0] = some 0 ∧
      ((51 : Int) - 0 ≤ 50 →
        alook 7 (exchangeStep 50 51
          ⟨[(7, 0)], [(7, ⟨100, 1, 0⟩)], [(7, ⟨1, 100⟩)],
            [(1, ⟨0, [7], 5⟩)]⟩).listings = some ⟨100, 1, 0⟩) ∧
      ((51 : Int) - 0 > 50 →
        alook 7 (exchangeStep 50 51
          ⟨[(7, 0)], [(7, ⟨100, 1, 0⟩)], [(7, ⟨1, 100⟩)],
            [(1, ⟨0, [7], 5⟩)]⟩).listings = none ∧
          (alook 7 (exchangeStep 50 51
            ⟨[(7, 0)], [(7, ⟨100, 1, 0⟩)], [(7, ⟨1, 100⟩)],
              [(1, ⟨0, [7], 5⟩)]⟩).items).map ItemSt.listedPrice = some 0) :=
  exchange_step_expiry 50 [(7, ⟨1, 0⟩)] [(1, ⟨0, [7], 5⟩)]
    [XOp.sellOp 1 7 100 0] 0 51 _ 7 ⟨100, 1, 0⟩
    ⟨by decide, trivial⟩ rfl rfl

/-! ### C3 and C5: claim theorems -/

/-- C3: on the successful path `Exchange.buy` removes the listing and moves
the item, but transfers zero gold — the source reads
`item.listed_price.val` only after `_unlist_item` reset it to `0`.  Here a
buyer with 10 gold buys item 7 listed at price 5: afterwards the buyer
still holds 10 gold and the seller still holds 0.  A missing listing
raises `KeyError` and a quantity other than one raises `AssertionError`
instead of the claimed silent no-op. -/
theorem buy_moves_item_but_transfers_zero_gold :
    ((buy 2 7 ⟨[(7, 0)], [(7, ⟨5, 1, 0⟩)], [(7, ⟨1, 5⟩)],
        [(1, ⟨0, [7], 5⟩), (2, ⟨10, [], 5⟩)]⟩).map fun s₂ =>
      ((alook 2 s₂.agents).map AgentSt.gold,
       (alook 1 s₂.agents).map AgentSt.gold,
       (alook 2 s₂.agents).map AgentSt.inv,
       (alook 1 s₂.agents).map AgentSt.inv,
       alook 7 s₂.listings,
       (alook 7 s₂.items).map ItemSt.listedPrice))
      = .ok (some 10, some 0, some [7], some [], none, some 0) ∧
    buy 2 9 ⟨[(7, 0)], [(7, ⟨5, 1, 0⟩)], [(7, ⟨1, 5⟩)],
        [(1, ⟨0, [7], 5⟩), (2, ⟨10, [], 5⟩)]⟩ = .error "KeyError" ∧
    buy 2 7 ⟨[(7, 0)], [(7, ⟨5, 1, 0⟩)], [(7, ⟨2, 5⟩)],
        [(1, ⟨0, [7], 5⟩), (2, ⟨10, [], 5⟩)]⟩
      = .error "AssertionError: quantity" :=
  ⟨rfl, rfl, rfl⟩

/-- C5 counterexample: selling item 7 at price 0 yields a state with an
active listing for 7 whose `listed_price` is 0 — the claimed equivalence
fails for the price 0 passed to `sell`. -/
theorem sell_zero_price_violates_listing_invariant :
    sell 1 7 0 0 (initExch [(7, ⟨1, 0⟩)] [(1, ⟨0, [7], 5⟩)])
      = .ok ⟨[(7, 0)], [(7, ⟨0, 1, 0⟩)], [(7, ⟨1, 0⟩)], [(1, ⟨0, [7], 5⟩)]⟩ ∧
    ¬ listingInvariant
        ⟨[(7, 0)], [(7, ⟨0, 1, 0⟩)], [(7, ⟨1, 0⟩)], [(1, ⟨0, [7], 5⟩)]⟩ := by
  constructor
  · rfl
  · intro h
    have := (h (7, ⟨1, 0⟩) (by decide)).mpr (by decide)
    exact this rfl

/-- C5 (amended): starting from an exchange whose items are all unlisted
(listed price `0`), after any trace whose sell prices are all non-zero, an
item's `listed_price` is non-zero exactly when it has an active listing. -/
theorem listing_invariant_nonzero_prices (dur : Int)
    (items : List (Nat × ItemSt)) (agents : List (Nat × AgentSt))
    (ops : List XOp) (s' : ExchSt)
    (hinit : ∀ p ∈ items, p.2.listedPrice = 0)
    (hnz : sellPricesNonzero ops)
    (hexec : execXOps dur (initExch items agents) ops = .ok s') :
    listingInvariant s' := by
  refine listingInvariant_execXOps dur ops (initExch items agents) s' ?_
    hnz hexec
  intro p hp
  constructor
  · intro hne
    exact absurd (hinit p hp) hne
  · intro hsome
    cases hsome

/-- C5 witness: a non-zero-price sell followed by an expiring step keeps
the invariant at each end state. -/
theorem listing_invariant_nonzero_prices_witness :
    (∀ p ∈ [(7, (⟨1, 0⟩ : ItemSt))], p.2.listedPrice = 0) ∧
      sellPricesNonzero [XOp.sellOp 1 7 100 0, XOp.stepOp 51] ∧
      listingInvariant ⟨[], [], [(7, ⟨1, 0⟩)], [(1, ⟨0, [7], 5⟩)]⟩ :=
  ⟨by decide,
   (by
    intro op hop seller itemId price tick heq
    simp only [List.mem_cons, List.not_mem_nil, or_false] at hop
    rcases hop with h | h
    · subst h; cases heq; decide
    · subst h; cases heq),
   listing_invariant_nonzero_prices 50 [(7, ⟨1, 0⟩)] [(1, ⟨0, [7], 5⟩)]
     [XOp.sellOp 1 7 100 0, XOp.stepOp 51] _
     (by decide)
     (by
       intro op hop seller itemId price tick heq
       simp only [List.mem_cons, List.not_mem_nil, or_false] at hop
       rcases hop with h | h
       · subst h; cases heq; decide
       · subst h; cases heq)
     rfl⟩

/-! ### Combat resolver (nmmo/systems/combat.py)

`damage_multiplier` and the damage computation of `attack` (its lines
38-92: style dispatch, offense/defense totals, configured formula, clamp).
Ammunition consumption, logging, and the application of the damage to the
entities (`apply_damage` / `receive_damage`) mutate other subsystems and
are treated separately.

The `weakness` class attribute lives in nmmo/systems/skill.py, which is
not among the sources; it is kept as a configuration field
(`Style → Style`, giving for each style the attacking style it is weak
to), exactly how `damage_multiplier` consumes it. -/

inductive Style where
  | melee
  | range
  | mage
  deriving DecidableEq, Repr

/-- Index of a style in the fixed order of `damage_multiplier`'s
`skills = [targ.skills.melee, targ.skills.range, targ.skills.mage]`. -/
def styleIdx : Style → Nat
  | .melee => 0
  | .range => 1
  | .mage => 2

/-- The three combat-style experience values of a defender. -/
structure TargSkills where
  meleeExp : Int
  rangeExp : Int
  mageExp : Int
  deriving DecidableEq, Repr

def expOf (t : TargSkills) : Style → Int
  | .melee => t.meleeExp
  | .range => t.rangeExp
  | .mage => t.mageExp

/-- Configuration consumed by the combat resolver.  Field names follow the
config options read by the source. -/
structure CombatConfig where
  COMBAT_WEAKNESS_MULTIPLIER : ℚ
  weakness : Style → Style
  COMBAT_DAMAGE_FORMULA : Int → Int → ℚ → ℚ
  PROGRESSION_SYSTEM_ENABLED : Bool
  EQUIPMENT_SYSTEM_ENABLED : Bool
  COMBAT_MELEE_DAMAGE : Int
  COMBAT_RANGE_DAMAGE : Int
  COMBAT_MAGE_DAMAGE : Int
  PROGRESSION_MELEE_BASE_DAMAGE : Int
  PROGRESSION_MELEE_LEVEL_DAMAGE : Int
  PROGRESSION_RANGE_BASE_DAMAGE : Int
  PROGRESSION_RANGE_LEVEL_DAMAGE : Int
  PROGRESSION_MAGE_BASE_DAMAGE : Int
  PROGRESSION_MAGE_LEVEL_DAMAGE : Int
  PROGRESSION_BASE_DEFENSE : Int
  PROGRESSION_LEVEL_DEFENSE : Int

/-- `np.argmax([exp])` over `[meleeExp, rangeExp, mageExp]`: the index of
the first maximal entry, mapped back to its style. -/
def argmaxFirstStyle (m r g : Int) : Style :=
  if r ≤ m ∧ g ≤ m then .melee else if g ≤ r then .range else .mage

/-- `combat.damage_multiplier`: `1.0` when all three experiences coincide
(`max(exp) == min(exp)`), else the configured multiplier when the
attacker's style is the dominant style's weakness. -/
def damage_multiplier (cfg : CombatConfig) (skill : Style)
    (targ : TargSkills) : ℚ :=
  if max targ.meleeExp (max targ.rangeExp targ.mageExp)
      = min targ.meleeExp (min targ.rangeExp targ.mageExp) then 1
  else
    let dominant := argmaxFirstStyle targ.meleeExp targ.rangeExp targ.mageExp
    if skill = cfg.weakness dominant then cfg.COMBAT_WEAKNESS_MULTIPLIER
    else 1

/-- Attacker data read by `attack`: the used skill's level and the
equipment offense totals `player.equipment.total(offense_fn)` per style. -/
structure AttackerSt where
  skillLevel : Int
  meleeEquipOffense : Int
  rangeEquipOffense : Int
  mageEquipOffense : Int
  deriving DecidableEq, Repr

/-- Defender data read by `attack`: combat experiences, overall level
`combat.level(target.skills)`, and the equipment defense totals. -/
structure DefenderSt where
  skills : TargSkills
  level : Int
  meleeEquipDefense : Int
  rangeEquipDefense : Int
  mageEquipDefense : Int
  deriving DecidableEq, Repr

/-- Python `int(x)`: truncation toward zero — floor for non-negative
values, ceiling for negative ones. -/
def pyInt (q : ℚ) : Int :=
  if 0 ≤ q then ⌊q⌋ else ⌈q⌉

/-- The offense computed by `attack`:
`skill_offense + equipment_offense`. -/
def attackOffense (cfg : CombatConfig) (skill : Style)
    (player : AttackerSt) : Int :=
  let baseDamage :=
    match skill with
    | .melee =>
        if cfg.PROGRESSION_SYSTEM_ENABLED then cfg.PROGRESSION_MELEE_BASE_DAMAGE
        else cfg.COMBAT_MELEE_DAMAGE
    | .range =>
        if cfg.PROGRESSION_SYSTEM_ENABLED then cfg.PROGRESSION_RANGE_BASE_DAMAGE
        else cfg.COMBAT_RANGE_DAMAGE
    | .mage =>
        if cfg.PROGRESSION_SYSTEM_ENABLED then cfg.PROGRESSION_MAGE_BASE_DAMAGE
        else cfg.COMBAT_MAGE_DAMAGE
  let levelDamage :=
    match skill with
    | .melee =>
        if cfg.PROGRESSION_SYSTEM_ENABLED then cfg.PROGRESSION_MELEE_LEVEL_DAMAGE
        else 0
    | .range =>
        if cfg.PROGRESSION_SYSTEM_ENABLED then cfg.PROGRESSION_RANGE_LEVEL_DAMAGE
        else 0
    | .mage =>
        if cfg.PROGRESSION_SYSTEM_ENABLED then cfg.PROGRESSION_MAGE_LEVEL_DAMAGE
        else 0
  let equipmentOffense :=
    if cfg.EQUIPMENT_SYSTEM_ENABLED then
      match skill with
      | .melee => player.meleeEquipOffense
      | .range => player.rangeEquipOffense
      | .mage => player.mageEquipOffense
    else 0
  baseDamage + levelDamage * player.skillLevel + equipmentOffense

/-- The defense computed by `attack`:
`skill_defense + equipment_defense`. -/
def attackDefense (cfg : CombatConfig) (skill : Style)
    (target : DefenderSt) : Int :=
  let skillDefense :=
    if cfg.PROGRESSION_SYSTEM_ENABLED then
      cfg.PROGRESSION_BASE_DEFENSE + cfg.PROGRESSION_LEVEL_DEFENSE * target.level
    else 0
  let equipmentDefense :=
    if cfg.EQUIPMENT_SYSTEM_ENABLED then
      match skill with
      | .melee => target.meleeEquipDefense
      | .range => target.rangeEquipDefense
      | .mage => target.mageEquipDefense
    else 0
  skillDefense + equipmentDefense

/-- The damage value produced by `attack`:
`max(int(COMBAT_DAMAGE_FORMULA(offense, defense, multiplier)), 0)`. -/
def attackDamage (cfg : CombatConfig) (skill : Style) (player : AttackerSt)
    (target : DefenderSt) : Int :=
  let multiplier := damage_multiplier cfg skill target.skills
  let offense := attackOffense cfg skill player
  let defense := attackDefense cfg skill target
  let damage := cfg.COMBAT_DAMAGE_FORMULA offense defense multiplier
  max (pyInt damage) 0

/-- The damage the C6 claim describes: `max(0, round(formula(...)))` with
rounding to the nearest integer instead of the source's truncation. -/
def claimRoundDamage (cfg : CombatConfig) (skill : Style)
    (player : AttackerSt) (target : DefenderSt) : Int :=
  let multiplier := damage_multiplier cfg skill target.skills
  let offense := attackOffense cfg skill player
  let defense := attackDefense cfg skill target
  max 0 (round (cfg.COMBAT_DAMAGE_FORMULA offense defense multiplier))

/-- The multiplier the C7 claim describes: the dominant style is always the
first-in-order argmax, with no special case for three equal
experiences. -/
def claimMultiplier (cfg : CombatConfig) (skill : Style)
    (targ : TargSkills) : ℚ :=
  let dominant := argmaxFirstStyle targ.meleeExp targ.rangeExp targ.mageExp
  if skill = cfg.weakness dominant then cfg.COMBAT_WEAKNESS_MULTIPLIER else 1

/-- The default damage formula: `multiplier * (offense - defense)`. -/
def defaultFormula : Int → Int → ℚ → ℚ :=
  fun offense defense multiplier =>
    multiplier * ((offense : ℚ) - (defense : ℚ))

/-- Weakness cycle.  Modelled from the spec: the `weakness` class attribute
lives in nmmo/systems/skill.py, which is missing from the sources; the
glossary only fixes that each style has a designated countering style, so
the standard cycle is used (melee countered by mage, range by melee, mage
by range).  The C6/C7 results do not depend on this choice. -/
def weaknessCycle : Style → Style
  | .melee => .mage
  | .range => .melee
  | .mage => .range

/-- Configuration used in the C6 counterexample: weakness multiplier 8/5,
mage base damage 3, everything else off. -/
def cfgTrunc : CombatConfig :=
  { COMBAT_WEAKNESS_MULTIPLIER := 8/5,
    weakness := weaknessCycle,
    COMBAT_DAMAGE_FORMULA := defaultFormula,
    PROGRESSION_SYSTEM_ENABLED := false, EQUIPMENT_SYSTEM_ENABLED := false,
    COMBAT_MELEE_DAMAGE := 0, COMBAT_RANGE_DAMAGE := 0,
    COMBAT_MAGE_DAMAGE := 3,
    PROGRESSION_MELEE_BASE_DAMAGE := 0, PROGRESSION_MELEE_LEVEL_DAMAGE := 0,
    PROGRESSION_RANGE_BASE_DAMAGE := 0, PROGRESSION_RANGE_LEVEL_DAMAGE := 0,
    PROGRESSION_MAGE_BASE_DAMAGE := 0, PROGRESSION_MAGE_LEVEL_DAMAGE := 0,
    PROGRESSION_BASE_DEFENSE := 0, PROGRESSION_LEVEL_DEFENSE := 0 }

/-- Configuration realising the spec's example: progression enabled with
melee base damage 50, base defense `baseDef`, no level growth, equipment
off, default formula. -/
def cfgSpecExample (baseDef : Int) : CombatConfig :=
  { COMBAT_WEAKNESS_MULTIPLIER := 1,
    weakness := weaknessCycle,
    COMBAT_DAMAGE_FORMULA := defaultFormula,
    PROGRESSION_SYSTEM_ENABLED := true, EQUIPMENT_SYSTEM_ENABLED := false,
    COMBAT_MELEE_DAMAGE := 0, COMBAT_RANGE_DAMAGE := 0,
    COMBAT_MAGE_DAMAGE := 0,
    PROGRESSION_MELEE_BASE_DAMAGE := 50, PROGRESSION_MELEE_LEVEL_DAMAGE := 0,
    PROGRESSION_RANGE_BASE_DAMAGE := 0, PROGRESSION_RANGE_LEVEL_DAMAGE := 0,
    PROGRESSION_MAGE_BASE_DAMAGE := 0, PROGRESSION_MAGE_LEVEL_DAMAGE := 0,
    PROGRESSION_BASE_DEFENSE := baseDef, PROGRESSION_LEVEL_DEFENSE := 0 }

/-- C6 counterexample: with the default formula, weakness multiplier 8/5,
offense 3 and defense 0, the formula yields 4.8; the source truncates
(`int`) to damage 4, while the claim's `max(0, round(...))` yields 5. -/
theorem attack_damage_truncates_not_rounds :
    attackDamage cfgTrunc .mage ⟨0, 0, 0, 0⟩ ⟨⟨3, 1, 1⟩, 0, 0, 0, 0⟩ = 4 ∧
      claimRoundDamage cfgTrunc .mage ⟨0, 0, 0, 0⟩ ⟨⟨3, 1, 1⟩, 0, 0, 0, 0⟩ = 5 ∧
      (4 : Int) ≠ 5 := by
  refine ⟨?_, ?_, by decide⟩
  · simp only [attackDamage, attackOffense, attackDefense, damage_multiplier,
      argmaxFirstStyle, pyInt, cfgTrunc, defaultFormula, weaknessCycle]
    norm_num [Int.floor_eq_iff]
  · simp only [claimRoundDamage, attackOffense, attackDefense,
      damage_multiplier, argmaxFirstStyle, cfgTrunc, defaultFormula,
      weaknessCycle]
    norm_num [round_eq, Int.floor_eq_iff]

/-- C6 (amended): the applied damage is
`max(int(configured_damage_formula(offense, defense, multiplier)), 0)` with
Python `int` truncation toward zero (not `round`); with the default formula
`multiplier * (offense - defense)`, offense 50 / defense 20 / multiplier 1
give damage 30 and defense 60 gives damage 0; damage is never negative. -/
theorem attack_damage_formula_clamped :
    (∀ (cfg : CombatConfig) (skill : Style) (pl : AttackerSt)
        (tg : DefenderSt),
      attackDamage cfg skill pl tg =
        max (pyInt (cfg.COMBAT_DAMAGE_FORMULA (attackOffense cfg skill pl)
          (attackDefense cfg skill tg)
          (damage_multiplier cfg skill tg.skills))) 0) ∧
    attackDamage (cfgSpecExample 20) .melee ⟨0, 0, 0, 0⟩
      ⟨⟨1, 1, 1⟩, 0, 0, 0, 0⟩ = 30 ∧
    attackDamage (cfgSpecExample 60) .melee ⟨0, 0, 0, 0⟩
      ⟨⟨1, 1, 1⟩, 0, 0, 0, 0⟩ = 0 ∧
    (∀ (cfg : CombatConfig) (skill : Style) (pl : AttackerSt)
        (tg : DefenderSt), 0 ≤ attackDamage cfg skill pl tg) := by
  refine ⟨fun cfg skill pl tg => rfl, ?_, ?_, fun cfg skill pl tg =>
    le_max_right _ 0⟩
  · simp only [attackDamage, attackOffense, attackDefense, damage_multiplier,
      argmaxFirstStyle, pyInt, cfgSpecExample, defaultFormula, weaknessCycle]
    norm_num
  · simp only [attackDamage, attackOffense, attackDefense, damage_multiplier,
      argmaxFirstStyle, pyInt, cfgSpecExample, defaultFormula, weaknessCycle]
    norm_num
    exact Int.ceil_le.mpr (by norm_num)

/-- Configuration used in the C7 theorems: weakness multiplier 2. -/
def cfgWeak : CombatConfig :=
  { cfgTrunc with COMBAT_WEAKNESS_MULTIPLIER := 2 }

/-- C7 counterexample: with all three experiences equal (5, 5, 5) the
source returns multiplier 1.0 unconditionally, while the claim's tie-break
(melee dominant, here countered by mage) prescribes the configured
multiplier 2 for a mage attacker. -/
theorem damage_multiplier_all_equal_exp :
    damage_multiplier cfgWeak .mage ⟨5, 5, 5⟩ = 1 ∧
      claimMultiplier cfgWeak .mage ⟨5, 5, 5⟩ = 2 ∧
      damage_multiplier cfgWeak .mage ⟨5, 5, 5⟩
        ≠ claimMultiplier cfgWeak .mage ⟨5, 5, 5⟩ := by
  have h₁ : damage_multiplier cfgWeak .mage ⟨5, 5, 5⟩ = 1 := by
    simp [damage_multiplier]
  have h₂ : claimMultiplier cfgWeak .mage ⟨5, 5, 5⟩ = 2 := by
    simp [claimMultiplier, argmaxFirstStyle, cfgWeak, cfgTrunc, weaknessCycle]
  exact ⟨h₁, h₂, by rw [h₁, h₂]; norm_num⟩

/-- C7 (amended): when the three experiences are not all equal, the
dominant style is the experience argmax with ties favouring the fixed
order melee, range, mage, and the multiplier is the configured one exactly
when the attacker's style is the dominant style's weakness; when all three
experiences are equal the source short-circuits to multiplier 1.0. -/
theorem damage_multiplier_dominant (cfg : CombatConfig) (skill : Style)
    (targ : TargSkills) :
    (targ.meleeExp = targ.rangeExp ∧ targ.rangeExp = targ.mageExp →
      damage_multiplier cfg skill targ = 1) ∧
    (¬ (targ.meleeExp = targ.rangeExp ∧ targ.rangeExp = targ.mageExp) →
      expOf targ (argmaxFirstStyle targ.meleeExp targ.rangeExp targ.mageExp)
          = max targ.meleeExp (max targ.rangeExp targ.mageExp) ∧
        (∀ s : Style,
          expOf targ s = max targ.meleeExp (max targ.rangeExp targ.mageExp) →
          styleIdx (argmaxFirstStyle targ.meleeExp targ.rangeExp targ.mageExp)
            ≤ styleIdx s) ∧
        damage_multiplier cfg skill targ =
          (if skill = cfg.weakness
              (argmaxFirstStyle targ.meleeExp targ.rangeExp targ.mageExp)
            then cfg.COMBAT_WEAKNESS_MULTIPLIER else 1)) := by
  obtain ⟨m, r, g⟩ := targ
  dsimp only [expOf, damage_multiplier, argmaxFirstStyle]
  constructor
  · rintro ⟨h₁, h₂⟩
    subst h₁
    subst h₂
    simp
  · intro hne
    have hmaxmin : ¬ (max m (max r g) = min m (min r g)) := by omega
    rw [if_neg hmaxmin]
    by_cases c₁ : r ≤ m ∧ g ≤ m
    · rw [if_pos c₁]
      refine ⟨by dsimp only [expOf]; omega, ?_, rfl⟩
      intro s hs
      cases s <;> simp [styleIdx]
    · rw [if_neg c₁]
      by_cases c₂ : g ≤ r
      · rw [if_pos c₂]
        refine ⟨by dsimp only [expOf]; omega, ?_, rfl⟩
        intro s hs
        cases s <;> dsimp only [expOf, styleIdx] at hs ⊢ <;> omega
      · rw [if_neg c₂]
        refine ⟨by dsimp only [expOf]; omega, ?_, rfl⟩
        intro s hs
        cases s <;> dsimp only [expOf, styleIdx] at hs ⊢ <;> omega

/-- C7 witness: experiences (3, 1, 1) are not all equal; melee dominates
and a mage attacker (melee's weakness) receives multiplier 2. -/
theorem damage_multiplier_dominant_witness :
    (¬ ((3 : Int) = 1 ∧ (1 : Int) = 1)) ∧
      (expOf ⟨3, 1, 1⟩ (argmaxFirstStyle 3 1 1) = max 3 (max 1 1) ∧
        (∀ s : Style, expOf ⟨3, 1, 1⟩ s = max 3 (max 1 1) →
          styleIdx (argmaxFirstStyle 3 1 1) ≤ styleIdx s) ∧
        damage_multiplier cfgWeak .mage ⟨3, 1, 1⟩ =
          (if Style.mage = cfgWeak.weakness (argmaxFirstStyle 3 1 1)
            then cfgWeak.COMBAT_WEAKNESS_MULTIPLIER else 1)) :=
  ⟨by decide, (damage_multiplier_dominant cfgWeak .mage ⟨3, 1, 1⟩).2
    (by decide)⟩

/-! ### Player.receive_damage (nmmo/entity/player.py)

The inherited `entity.Entity.receive_damage` and `Skills.receive_damage`
are not among the sources, so the embedding takes them as arbitrary
transformers of the observable state; `Player.receive_damage` is the exact
control flow of the source around them, and the C10 result holds for every
instantiation. -/

/-- Observable player state read or written by `Player.receive_damage`. -/
structure PlayerSt where
  immortal : Bool
  health : Int
  alive : Bool
  inventory : List Nat
  deriving DecidableEq, Repr

/-- Observable state of the damage source (the attacker), when present. -/
structure KillerSt where
  inventory : List Nat
  playerKills : Int
  deriving DecidableEq, Repr

/-- `Player.receive_damage(source, dmg)`: returns the source's boolean
result plus the updated player and source.  `entityRD` stands for
`super().receive_damage`, `skillsRD` for `self.skills.receive_damage`. -/
def playerReceiveDamage
    (entityRD : PlayerSt → Option KillerSt → Int →
      Bool × PlayerSt × Option KillerSt)
    (skillsRD : Int → PlayerSt → PlayerSt)
    (itemSystemEnabled : Bool)
    (p : PlayerSt) (source : Option KillerSt) (dmg : Int) :
    Bool × PlayerSt × Option KillerSt :=
  if p.immortal then (false, p, source)
  else
    let r₁ := entityRD p source dmg
    if r₁.1 then (true, r₁.2.1, r₁.2.2)
    else if ¬ itemSystemEnabled then (false, r₁.2.1, r₁.2.2)
    else
      let p₂ := { r₁.2.1 with inventory := [] }
      let src₂ := r₁.2.2.map
        (fun k => { k with inventory := k.inventory ++ r₁.2.1.inventory })
      let r₂ := entityRD p₂ src₂ dmg
      if ¬ r₂.1 then
        (false, r₂.2.1,
          r₂.2.2.map (fun k => { k with playerKills := k.playerKills + 1 }))
      else
        (false, skillsRD dmg r₂.2.1, r₂.2.2)

/-- C10: whenever the immortal flag is set, `Player.receive_damage` returns
`False` immediately — for every inherited damage behaviour, every skills
hook, every item-system setting, every source, and every damage amount —
with the player's health, alive flag, and inventory, and the source's
inventory, all unchanged. -/
theorem immortal_receive_damage_is_noop
    (entityRD : PlayerSt → Option KillerSt → Int →
      Bool × PlayerSt × Option KillerSt)
    (skillsRD : Int → PlayerSt → PlayerSt)
    (itemSystemEnabled : Bool)
    (p : PlayerSt) (source : Option KillerSt) (dmg : Int)
    (h : p.immortal = true) :
    playerReceiveDamage entityRD skillsRD itemSystemEnabled p source dmg
      = (false, p, source) := by
  unfold playerReceiveDamage
  rw [if_pos h]

/-- C10 witness: a concrete immortal player with health 7 and one item,
against an inherited behaviour that would halve health and report death. -/
theorem immortal_receive_damage_is_noop_witness :
    (PlayerSt.immortal ⟨true, 7, true, [3]⟩ = true) ∧
      playerReceiveDamage
        (fun p s _ => (true, { p with health := 0, alive := false }, s))
        (fun _ p => p) true ⟨true, 7, true, [3]⟩ (some ⟨[], 0⟩) 100
        = (false, ⟨true, 7, true, [3]⟩, some ⟨[], 0⟩) :=
  ⟨rfl, immortal_receive_damage_is_noop
    (fun p s _ => (true, { p with health := 0, alive := false }, s))
    (fun _ p => p) true ⟨true, 7, true, [3]⟩ (some ⟨[], 0⟩) 100 rfl⟩

/-! ### Realm (nmmo/core/realm.py)

`Realm.step`: merge actions into priority buckets (`prioritized`), run the
per-entity updates, execute buckets in ascending priority with a per-bucket
shuffle from the world generator, cull, and advance the clock.

Spec-modelled parts (their sources are not under src/):
  * entity managers (`PlayerManager`/`NPCManager`): entity stores keep dead
    entities until `cull()` removes and returns them (spec §4.4 step 4);
    `get` is plain dictionary lookup;
  * action handlers (nmmo/io/action.py): an action is a
    (priority, handler, arguments) tuple; the modelled handler deals damage
    to a target entity (spec §4.2 step 6: the defender's health is
    reduced), or does nothing;
  * `np.random.Generator.shuffle`: a permutation fully determined by the
    generator's next draw (here: a rotation);
  * `resources.update` / `skills.update` inside `Player.update`: modelled
    as not changing the state the claims observe; the death-fog damage of
    `Player.update` is embedded from the source. -/

structure RealmCfg where
  PLAYER_DEATH_FOG : Option Int
  PLAYER_DEATH_FOG_SPEED : Int
  PLAYER_DEATH_FOG_FINAL_SIZE : Int
  MAP_BORDER : Int
  MAP_CENTER : Int
  deriving DecidableEq, Repr

structure Ent where
  pos : Int × Int
  health : Int
  alive : Bool
  deriving DecidableEq, Repr

/-- Entity stores: players keyed by non-negative ids, NPCs by negative
ids, plus the world clock. -/
structure RealmSt where
  players : List (Int × Ent)
  npcs : List (Int × Ent)
  tick : Int
  deriving DecidableEq, Repr

/-- Events of a tick: a per-entity update hook ran, or an action was
executed. -/
inductive Ev where
  | hook (id : Int)
  | act (id : Int)
  deriving DecidableEq, Repr

def Ev.isHook : Ev → Bool
  | .hook _ => true
  | .act _ => false

def Ev.isAct : Ev → Bool
  | .hook _ => false
  | .act _ => true

/-- Modelled action effect: hit a target for a fixed amount, or idle. -/
inductive RAction where
  | hit (target : Int) (amount : Int)
  | idle
  deriving DecidableEq, Repr

/-- A submitted action: priority class plus effect (`atn.priority`,
`(atn, args)`). -/
structure QAction where
  priority : Nat
  act : RAction
  deriving DecidableEq, Repr

/-- `Realm.entity_or_none`: dispatch on the id's sign. -/
def entity_or_none (s : RealmSt) (entId : Int) : Option Ent :=
  if entId < 0 then alook entId s.npcs else alook entId s.players

/-- `Realm.entity`: `assert e is not None` — an absent entity raises. -/
def realmEntity (s : RealmSt) (entId : Int) : Except String Ent :=
  match entity_or_none s entId with
  | none => .error "AssertionError: Entity does not exist"
  | some e => .ok e

/-- Damage an entity: health decremented, alive iff still positive. -/
def applyDamageEnt (dmg : Int) (e : Ent) : Ent :=
  { e with health := e.health - dmg, alive := decide (0 < e.health - dmg) }

def applyDamage (s : RealmSt) (target : Int) (dmg : Int) : RealmSt :=
  if target < 0 then
    { s with npcs := aupd target (applyDamageEnt dmg) s.npcs }
  else
    { s with players := aupd target (applyDamageEnt dmg) s.players }

/-- `atn.call(self, ent, *args)` for the modelled action effects. -/
def RAction.call (s : RealmSt) : RAction → RealmSt
  | .idle => s
  | .hit target amount => applyDamage s target amount

/-- `prioritized`: flatten one submitter's `{entity: {action: args}}`
mapping into `(priority, entity, action)` triples, in iteration order. -/
def prioritized (entities : List (Int × List QAction)) :
    List (Nat × Int × RAction) :=
  (entities.map (fun p => p.2.map (fun qa => (qa.priority, p.1, qa.act)))).flatten

def insertSortedNat (n : Nat) : List Nat → List Nat
  | [] => [n]
  | m :: rest => if n ≤ m then n :: m :: rest else m :: insertSortedNat n rest

/-- Ascending priority keys (`for priority in sorted(merged)`). -/
def sortNat (l : List Nat) : List Nat := l.foldr insertSortedNat []

/-- `self.rng.shuffle(bucket)`, modelled as the rotation selected by the
world generator's next draw. -/
def shuffleWith (r : Nat) (l : List α) : List α :=
  l.drop (r % l.length) ++ l.take (r % l.length)

/-- Execute one (already shuffled) priority bucket sequentially: look the
entity up through the asserting `Realm.entity`, then run the action against
the current state. -/
def execBucket (s : RealmSt) :
    List (Int × RAction) → Except String (RealmSt × List Ev)
  | [] => .ok (s, [])
  | (entId, a) :: rest =>
      match realmEntity s entId with
      | .error e => .error e
      | .ok _ =>
        match execBucket (RAction.call s a) rest with
        | .error e => .error e
        | .ok (s₂, evs) => .ok (s₂, Ev.act entId :: evs)

/-- Execute the priority keys in order, drawing one shuffle per bucket from
the world generator stream `wrng` (counter `k`). -/
def execPriorities (wrng : Nat → Nat) (merged : List (Nat × Int × RAction)) :
    List Nat → Nat → RealmSt → Except String (RealmSt × Nat × List Ev)
  | [], k, s => .ok (s, k, [])
  | p :: rest, k, s =>
      let bucket := (merged.filter (fun x => x.1 = p)).map
        (fun x => (x.2.1, x.2.2))
      match execBucket s (shuffleWith (wrng k) bucket) with
      | .error e => .error e
      | .ok (s₁, evs₁) =>
        match execPriorities wrng merged rest (k + 1) s₁ with
        | .error e => .error e
        | .ok (s₂, k₂, evs₂) => .ok (s₂, k₂, evs₁ ++ evs₂)

/-- The death-fog damage of `Player.update` (source lines 111-125). -/
def playerUpdate (cfg : RealmCfg) (tick : Int) (e : Ent) : Ent :=
  match cfg.PLAYER_DEATH_FOG with
  | none => e
  | some fog =>
      if fog ≤ tick then
        let cent := cfg.MAP_BORDER + cfg.MAP_CENTER / 2
        let dist := max (abs (e.pos.1 - cent)) (abs (e.pos.2 - cent))
        if cfg.PLAYER_DEATH_FOG_FINAL_SIZE < dist then
          let timeDmg := cfg.PLAYER_DEATH_FOG_SPEED * (tick - fog + 1)
          let distDmg := dist - cfg.MAP_CENTER / 2
          applyDamageEnt (max 0 (distDmg + timeDmg)) e
        else e
      else e

/-- `self.players.update(actions)` and `self.npcs.update(npc_actions)`:
run every entity's per-tick update hook. -/
def updateEntities (cfg : RealmCfg) (s : RealmSt) : RealmSt :=
  { s with
    players := s.players.map (fun p => (p.1, playerUpdate cfg s.tick p.2)) }

/-- The hook events of the update phase, players then NPCs, in store
order. -/
def updateEvents (s : RealmSt) : List Ev :=
  s.players.map (fun p => Ev.hook p.1) ++ s.npcs.map (fun p => Ev.hook p.1)

def cullAlive (l : List (Int × Ent)) : List (Int × Ent) :=
  l.filter (fun p => p.2.alive)

def cullDead (l : List (Int × Ent)) : List (Int × Ent) :=
  l.filter (fun p => !p.2.alive)

/-- `Realm.step`: merge and prioritize, update entities, execute buckets in
ascending priority with per-bucket shuffles, cull (returning only the dead
players — `self.npcs.cull()`'s result is discarded), advance the clock.
`map.step`, `exchange.step` and the logging hooks do not touch the state
modelled here. -/
def realmStep (cfg : RealmCfg) (wrng : Nat → Nat) (k : Nat) (s : RealmSt)
    (actions npcActions : List (Int × List QAction)) :
    Except String (List (Int × Ent) × RealmSt × Nat × List Ev) :=
  let merged := prioritized actions ++ prioritized npcActions
  let s₁ := updateEntities cfg s
  match execPriorities wrng merged
      (sortNat (merged.map (fun x => x.1)).dedup) k s₁ with
  | .error e => .error e
  | .ok (s₂, k₂, actEvs) =>
      .ok (cullDead s₂.players,
        ⟨cullAlive s₂.players, cullAlive s₂.npcs, s₂.tick + 1⟩,
        k₂, updateEvents s ++ actEvs)

/-! ### C1: actions of entities that died earlier in the tick -/

instance {ε α : Type} [DecidableEq ε] [DecidableEq α] :
    DecidableEq (Except ε α) := fun a b =>
  match a, b with
  | .error e, .error f =>
      if h : e = f then .isTrue (by rw [h])
      else .isFalse (fun hh => h (by cases hh; rfl))
  | .ok x, .ok y =>
      if h : x = y then .isTrue (by rw [h])
      else .isFalse (fun hh => h (by cases hh; rfl))
  | .error _, .ok _ => .isFalse (fun hh => Except.noConfusion hh)
  | .ok _, .error _ => .isFalse (fun hh => Except.noConfusion hh)

/-- C1: an entity killed by a higher-priority action in the same tick is
*not* silently skipped.  Player 1 kills player 2 at priority 0; player 2's
queued priority-1 attack still executes (event `act 2`), dropping player
1's health from 10 to 7, and no error is raised — the dead entity is still
found because the store is culled only after the action loop.  The lookup
the scheduler uses, `Realm.entity`, raises an `AssertionError` whenever an
entity is actually absent; it never reports a silent `not found`. -/
theorem dead_entity_action_still_executes :
    realmStep ⟨none, 0, 0, 2, 8⟩ (fun n => n) 0
        ⟨[(1, ⟨(0, 0), 10, true⟩), (2, ⟨(0, 0), 5, true⟩)], [], 0⟩
        [(1, [⟨0, .hit 2 5⟩]), (2, [⟨1, .hit 1 3⟩])] []
      = .ok ([(2, ⟨(0, 0), 0, false⟩)],
          ⟨[(1, ⟨(0, 0), 7, true⟩)], [], 1⟩, 2,
          [Ev.hook 1, Ev.hook 2, Ev.act 1, Ev.act 2]) ∧
    realmEntity ⟨[(1, ⟨(0, 0), 10, true⟩)], [], 0⟩ 2
      = .error "AssertionError: Entity does not exist" := by
  decide

/-! ### C8: ordering of update hooks and actions within a step -/

/-- Every action event precedes every update-hook event (the C8 claim in
index form). -/
def actionsBeforeHooks (evs : List Ev) : Prop :=
  ∀ (i j : Nat) (hi : i < evs.length) (hj : j < evs.length),
    (evs.get ⟨i, hi⟩).isAct = true → (evs.get ⟨j, hj⟩).isHook = true → i < j

theorem execBucket_events_isAct (s : RealmSt) (l : List (Int × RAction))
    (s₂ : RealmSt) (evs : List Ev) (h : execBucket s l = .ok (s₂, evs)) :
    ∀ e ∈ evs, e.isAct = true := by
  induction l generalizing s s₂ evs with
  | nil => cases h; intro e he; cases he
  | cons pair rest ih =>
    obtain ⟨entId, a⟩ := pair
    rw [execBucket] at h
    split at h
    · cases h
    · split at h
      · cases h
      · rename_i s₃ evs₃ hrec
        cases h
        intro e he
        rcases List.mem_cons.mp he with rfl | hmem
        · rfl
        · exact ih _ _ _ hrec e hmem

theorem execPriorities_events_isAct (wrng : Nat → Nat)
    (merged : List (Nat × Int × RAction)) (keys : List Nat) (k : Nat)
    (s s₂ : RealmSt) (k₂ : Nat) (evs : List Ev)
    (h : execPriorities wrng merged keys k s = .ok (s₂, k₂, evs)) :
    ∀ e ∈ evs, e.isAct = true := by
  induction keys generalizing k s s₂ k₂ evs with
  | nil => cases h; intro e he; cases he
  | cons p rest ih =>
    rw [execPriorities] at h
    split at h
    · cases h
    · rename_i s₃ evs₃ hb
      split at h
      · cases h
      · rename_i s₄ k₄ evs₄ hrec
        cases h
        intro e he
        rcases List.mem_append.mp he with hmem | hmem
        · exact execBucket_events_isAct _ _ _ _ hb e hmem
        · exact ih _ _ _ _ _ hrec e hmem

theorem updateEvents_isHook (s : RealmSt) :
    ∀ e ∈ updateEvents s, e.isHook = true := by
  intro e he
  rcases List.mem_append.mp he with hmem | hmem <;>
    · obtain ⟨p, _, hp⟩ := List.mem_map.mp hmem
      rw [← hp]
      rfl

/-- C8 (amended): within every `Realm.step` call, the per-entity update
hooks run strictly *before* the tick's actions — the event trace is the
hook events followed by the action events. -/
theorem realm_hooks_run_before_actions (cfg : RealmCfg) (wrng : Nat → Nat)
    (k : Nat) (s : RealmSt) (actions npcActions : List (Int × List QAction))
    (dead : List (Int × Ent)) (s' : RealmSt) (k' : Nat) (evs : List Ev)
    (h : realmStep cfg wrng k s actions npcActions
      = .ok (dead, s', k', evs)) :
    ∃ hooks acts, evs = hooks ++ acts ∧
      (∀ e ∈ hooks, e.isHook = true) ∧ (∀ e ∈ acts, e.isAct = true) := by
  unfold realmStep at h
  dsimp only at h
  split at h
  · cases h
  · rename_i s₂ k₂ actEvs hexec
    cases h
    exact ⟨updateEvents s, actEvs, rfl, updateEvents_isHook s,
      execPriorities_events_isAct _ _ _ _ _ _ _ _ hexec⟩

/-- C8 witness: a step with one player and one action produces the trace
`[hook 1, act 1]`, split as claimed. -/
theorem realm_hooks_run_before_actions_witness :
    ∃ hooks acts,
      [Ev.hook 1, Ev.act 1] = hooks ++ acts ∧
        (∀ e ∈ hooks, e.isHook = true) ∧ (∀ e ∈ acts, e.isAct = true) :=
  realm_hooks_run_before_actions ⟨none, 0, 0, 2, 8⟩ (fun n => n) 0
    ⟨[(1, ⟨(0, 0), 10, true⟩)], [], 0⟩ [(1, [⟨0, .idle⟩])] []
    [] ⟨[(1, ⟨(0, 0), 10, true⟩)], [], 1⟩ 1 [Ev.hook 1, Ev.act 1]
    (by decide)

/-- C8 counterexample: in the source the update hooks run first — the
trace of a step with one action is `[hook 1, act 1]`, so it is false that
every action precedes every hook. -/
theorem realm_actions_do_not_precede_hooks :
    realmStep ⟨none, 0, 0, 2, 8⟩ (fun n => n) 0
        ⟨[(1, ⟨(0, 0), 10, true⟩)], [], 0⟩ [(1, [⟨0, .idle⟩])] []
      = .ok ([], ⟨[(1, ⟨(0, 0), 10, true⟩)], [], 1⟩, 1,
          [Ev.hook 1, Ev.act 1]) ∧
    ¬ actionsBeforeHooks [Ev.hook 1, Ev.act 1] := by
  constructor
  · decide
  · intro h
    have := h 1 0 (by decide) (by decide) (by decide) (by decide)
    omega

/-! ### C9: culling and the returned dead list -/

theorem aupd_keys (k : κ) (f : α → α) (l : List (κ × α)) :
    (aupd k f l).map (fun p => p.1) = l.map (fun p => p.1) := by
  induction l with
  | nil => rfl
  | cons p rest ih =>
    obtain ⟨k₂, v⟩ := p
    rw [aupd_cons]
    by_cases hk : k₂ = k <;> simp [hk, ih]

theorem applyDamage_keys (s : RealmSt) (t dmg : Int) :
    (applyDamage s t dmg).players.map (fun p => p.1)
        = s.players.map (fun p => p.1) ∧
      (applyDamage s t dmg).npcs.map (fun p => p.1)
        = s.npcs.map (fun p => p.1) := by
  unfold applyDamage
  split
  · exact ⟨rfl, aupd_keys _ _ _⟩
  · exact ⟨aupd_keys _ _ _, rfl⟩

theorem call_keys (s : RealmSt) (a : RAction) :
    (RAction.call s a).players.map (fun p => p.1)
        = s.players.map (fun p => p.1) ∧
      (RAction.call s a).npcs.map (fun p => p.1)
        = s.npcs.map (fun p => p.1) := by
  cases a with
  | idle => exact ⟨rfl, rfl⟩
  | hit t dmg => exact applyDamage_keys s t dmg

theorem execBucket_keys (s : RealmSt) (l : List (Int × RAction))
    (s₂ : RealmSt) (evs : List Ev) (h : execBucket s l = .ok (s₂, evs)) :
    s₂.players.map (fun p => p.1) = s.players.map (fun p => p.1) ∧
      s₂.npcs.map (fun p => p.1) = s.npcs.map (fun p => p.1) := by
  induction l generalizing s s₂ evs with
  | nil => cases h; exact ⟨rfl, rfl⟩
  | cons pair rest ih =>
    obtain ⟨entId, a⟩ := pair
    rw [execBucket] at h
    split at h
    · cases h
    · split at h
      · cases h
      · rename_i s₃ evs₃ hrec
        cases h
        obtain ⟨hp, hn⟩ := ih _ _ _ hrec
        obtain ⟨hp₂, hn₂⟩ := call_keys s a
        exact ⟨hp.trans hp₂, hn.trans hn₂⟩

theorem execPriorities_keys (wrng : Nat → Nat)
    (merged : List (Nat × Int × RAction)) (keys : List Nat) (k : Nat)
    (s s₂ : RealmSt) (k₂ : Nat) (evs : List Ev)
    (h : execPriorities wrng merged keys k s = .ok (s₂, k₂, evs)) :
    s₂.players.map (fun p => p.1) = s.players.map (fun p => p.1) ∧
      s₂.npcs.map (fun p => p.1) = s.npcs.map (fun p => p.1) := by
  induction keys generalizing k s s₂ k₂ evs with
  | nil => cases h; exact ⟨rfl, rfl⟩
  | cons p rest ih =>
    rw [execPriorities] at h
    split at h
    · cases h
    · rename_i s₃ evs₃ hb
      split at h
      · cases h
      · rename_i s₄ k₄ evs₄ hrec
        cases h
        obtain ⟨hp, hn⟩ := ih _ _ _ _ _ hrec
        obtain ⟨hp₂, hn₂⟩ := execBucket_keys _ _ _ _ hb
        exact ⟨hp.trans hp₂, hn.trans hn₂⟩

theorem updateEntities_keys (cfg : RealmCfg) (s : RealmSt) :
    (updateEntities cfg s).players.map (fun p => p.1)
        = s.players.map (fun p => p.1) ∧
      (updateEntities cfg s).npcs.map (fun p => p.1)
        = s.npcs.map (fun p => p.1) := by
  refine ⟨?_, rfl⟩
  unfold updateEntities
  rw [List.map_map]
  rfl

theorem nodup_keys_unique (l : List (κ × α))
    (hn : (l.map (fun p => p.1)).Nodup) (k : κ) (v w : α)
    (h₁ : (k, v) ∈ l) (h₂ : (k, w) ∈ l) : v = w := by
  induction l with
  | nil => cases h₁
  | cons p rest ih =>
    rw [List.map_cons, List.nodup_cons] at hn
    obtain ⟨hnotin, hrest⟩ := hn
    rcases List.mem_cons.mp h₁ with rfl | hm₁
    · rcases List.mem_cons.mp h₂ with he | hm₂
      · exact (Prod.mk.injEq _ _ _ _ ▸ he).2.symm ▸ rfl
      · exact absurd (List.mem_map_of_mem (fun p => p.1) hm₂) (by simpa using hnotin)
    · rcases List.mem_cons.mp h₂ with rfl | hm₂
      · exact absurd (List.mem_map_of_mem (fun p => p.1) hm₁) (by simpa using hnotin)
      · exact ih hrest hm₁ hm₂

theorem alook_some_of_mem (k : κ) (v : α) (l : List (κ × α))
    (h : (k, v) ∈ l) : ∃ w, alook k l = some w ∧ (k, w) ∈ l := by
  induction l with
  | nil => cases h
  | cons p rest ih =>
    obtain ⟨k₂, u⟩ := p
    by_cases hk : k₂ = k
    · subst hk
      exact ⟨u, by rw [alook_cons, if_pos rfl], List.mem_cons_self _ _⟩
    · rcases List.mem_cons.mp h with he | hm
      · cases he; exact absurd rfl hk
      · obtain ⟨w, hw, hmem⟩ := ih hm
        exact ⟨w, by rw [alook_cons, if_neg hk]; exact hw,
          List.mem_cons_of_mem _ hmem⟩

/-- C9 (amended): `Realm.step` returns exactly the dead *players* of the
tick — every returned entity is a no-longer-alive player and is gone from
the store, no dead player or NPC remains queryable, and every player that
vanished from the store is in the returned list.  (Dead NPCs are culled
too, but `self.npcs.cull()`'s result is discarded, so they never appear in
the return value.) -/
theorem realm_step_cull_players (cfg : RealmCfg) (wrng : Nat → Nat)
    (k : Nat) (s : RealmSt) (actions npcActions : List (Int × List QAction))
    (dead : List (Int × Ent)) (s' : RealmSt) (k' : Nat) (evs : List Ev)
    (h : realmStep cfg wrng k s actions npcActions = .ok (dead, s', k', evs))
    (hwfP : ∀ p ∈ s.players, 0 ≤ p.1)
    (hnodupP : (s.players.map (fun p => p.1)).Nodup) :
    (∀ p ∈ dead, p.2.alive = false ∧ 0 ≤ p.1) ∧
      (∀ p ∈ dead, entity_or_none s' p.1 = none) ∧
      (∀ id e, alook id s'.players = some e → e.alive = true) ∧
      (∀ id e, alook id s'.npcs = some e → e.alive = true) ∧
      (∀ id e, alook id s.players = some e → alook id s'.players = none →
        ∃ e₂, (id, e₂) ∈ dead) := by
  unfold realmStep at h
  dsimp only at h
  split at h
  · cases h
  · rename_i s₂ k₂ actEvs hexec
    cases h
    have hkeys : s₂.players.map (fun p => p.1)
        = s.players.map (fun p => p.1) :=
      ((execPriorities_keys _ _ _ _ _ _ _ _ hexec).1).trans
        (updateEntities_keys cfg s).1
    have hsign : ∀ p ∈ s₂.players, (0 : Int) ≤ p.1 := by
      intro p hp
      have hk₂ : p.1 ∈ s₂.players.map (fun p => p.1) :=
        List.mem_map_of_mem (fun p => p.1) hp
      rw [hkeys] at hk₂
      obtain ⟨q, hq, hqe⟩ := List.mem_map.mp hk₂
      rw [← hqe]
      exact hwfP q hq
    have hnodup₂ : (s₂.players.map (fun p => p.1)).Nodup := by
      rw [hkeys]; exact hnodupP
    have hdeadfacts : ∀ p ∈ cullDead s₂.players,
        p.2.alive = false ∧ (0 : Int) ≤ p.1 := by
      intro p hp
      obtain ⟨hm, hcond⟩ := List.mem_filter.mp hp
      exact ⟨by simpa using hcond, hsign p hm⟩
    refine ⟨hdeadfacts, ?_, ?_, ?_, ?_⟩
    · intro p hp
      obtain ⟨hdead, hpos⟩ := hdeadfacts p hp
      obtain ⟨hm, _⟩ := List.mem_filter.mp hp
      unfold entity_or_none
      rw [if_neg (by omega)]
      dsimp only
      cases ha : alook p.1 (cullAlive s₂.players) with
      | none => rfl
      | some v =>
        exfalso
        have hmv := alook_mem _ _ _ ha
        obtain ⟨hmv₂, hvalive⟩ := List.mem_filter.mp hmv
        have : v = p.2 := by
          refine nodup_keys_unique s₂.players hnodup₂ p.1 v p.2 hmv₂ ?_
          rw [Prod.mk.eta]
          exact hm
        rw [this] at hvalive
        rw [hdead] at hvalive
        cases hvalive
    · intro id e he
      have hmv := alook_mem _ _ _ he
      obtain ⟨_, hvalive⟩ := List.mem_filter.mp hmv
      exact hvalive
    · intro id e he
      have hmv := alook_mem _ _ _ he
      obtain ⟨_, hvalive⟩ := List.mem_filter.mp hmv
      exact hvalive
    · intro id e he hnone
      have hkmem : id ∈ s.players.map (fun p => p.1) :=
        List.mem_map_of_mem (fun p => p.1) (alook_mem _ _ _ he)
      rw [← hkeys] at hkmem
      obtain ⟨q, hq, hqe⟩ := List.mem_map.mp hkmem
      by_cases halive : q.2.alive
      · exfalso
        have hmem₂ : (id, q.2) ∈ cullAlive s₂.players := by
          refine List.mem_filter.mpr ⟨?_, by simpa using halive⟩
          rw [← hqe, Prod.mk.eta]
          exact hq
        obtain ⟨w, hw, _⟩ := alook_some_of_mem _ _ _ hmem₂
        rw [hw] at hnone
        cases hnone
      · refine ⟨q.2, List.mem_filter.mpr ⟨?_, by simpa using halive⟩⟩
        rw [← hqe, Prod.mk.eta]
        exact hq

/-- C9 witness: player 1 kills player 2 mid-tick; the returned dead list is
exactly player 2, which is no longer queryable afterwards. -/
theorem realm_step_cull_players_witness :
    (∀ p ∈ [((2 : Int), (⟨(0, 0), 0, false⟩ : Ent))],
        p.2.alive = false ∧ (0 : Int) ≤ p.1) ∧
      (∀ p ∈ [((2 : Int), (⟨(0, 0), 0, false⟩ : Ent))],
        entity_or_none ⟨[(1, ⟨(0, 0), 7, true⟩)], [], 1⟩ p.1 = none) ∧
      (∀ id e, alook id ([(1, ⟨(0, 0), 7, true⟩)] : List (Int × Ent))
        = some e → e.alive = true) ∧
      (∀ id e, alook id ([] : List (Int × Ent)) = some e →
        e.alive = true) ∧
      (∀ id e, alook id
          ([(1, ⟨(0, 0), 10, true⟩), (2, ⟨(0, 0), 5, true⟩)] :
            List (Int × Ent)) = some e →
        alook id ([(1, ⟨(0, 0), 7, true⟩)] : List (Int × Ent)) = none →
        ∃ e₂, (id, e₂) ∈ [((2 : Int), (⟨(0, 0), 0, false⟩ : Ent))]) :=
  realm_step_cull_players ⟨none, 0, 0, 2, 8⟩ (fun n => n) 0
    ⟨[(1, ⟨(0, 0), 10, true⟩), (2, ⟨(0, 0), 5, true⟩)], [], 0⟩
    [(1, [⟨0, .hit 2 5⟩]), (2, [⟨1, .hit 1 3⟩])] []
    [(2, ⟨(0, 0), 0, false⟩)] ⟨[(1, ⟨(0, 0), 7, true⟩)], [], 1⟩ 2
    [Ev.hook 1, Ev.hook 2, Ev.act 1, Ev.act 2]
    (by decide) (by decide) (by decide)

/-- C9 counterexample: an NPC dies during the tick and is culled from the
store, yet the list `Realm.step` returns is empty — the return value only
ever contains players (`dead = self.players.cull()`; the result of
`self.npcs.cull()` is discarded). -/
theorem npc_death_not_in_returned_dead :
    realmStep ⟨none, 0, 0, 2, 8⟩ (fun n => n) 0
        ⟨[(1, ⟨(0, 0), 10, true⟩)], [(-1, ⟨(0, 0), 1, true⟩)], 0⟩
        [(1, [⟨0, .hit (-1) 5⟩])] []
      = .ok ([], ⟨[(1, ⟨(0, 0), 10, true⟩)], [], 1⟩, 1,
          [Ev.hook 1, Ev.hook (-1), Ev.act 1]) ∧
    (alook (-1) ([((-1 : Int), (⟨(0, 0), 1, true⟩ : Ent))])).map Ent.alive
      = some true := by
  decide

/-! ### C4: determinism and the two random generators

`Realm.reset` seeds the per-world generator (`self.rng =
np.random.default_rng(map_id)`), which `Realm.step` uses for the bucket
shuffles.  `combat.spawn`, however, draws from the *process-global*
`np.random` (`np.random.randint`, `np.random.rand`), which the world seed
never touches.  The global generator is modelled as an oracle of two
streams with cursors; the per-world generator as a stream that is a pure
function of the seed (spec-modelled, as is the spawn glue of
`NPCManager.spawn`, which is not under src/ — it places one NPC at the
position `combat.spawn(config, 0)` returns). -/

/-- The process-global numpy generator: integer draws (`randint`) and
unit-interval draws (`rand`), with cursors. -/
structure GGen where
  ints : Nat → Int
  rats : Nat → ℚ
  iIdx : Nat
  rIdx : Nat

def nextInt (g : GGen) : Int × GGen :=
  (g.ints g.iIdx, { g with iIdx := g.iIdx + 1 })

def nextRat (g : GGen) : ℚ × GGen :=
  (g.rats g.rIdx, { g with rIdx := g.rIdx + 1 })

/-- `combat.danger`: normalized distance of a position from the border. -/
def danger (cfg : RealmCfg) (pos : ℚ × ℚ) : ℚ :=
  let border : ℚ := (cfg.MAP_BORDER : ℚ)
  let center : ℚ := (cfg.MAP_CENTER : ℚ)
  let rDist := min (pos.1 - border) (center + border - pos.1 - 1)
  let cDist := min (pos.2 - border) (center + border - pos.2 - 1)
  2 * min rDist cDist / center

/-- `combat.spawn`: a position at danger level `dnger`, drawn from the
process-global generator (`np.random.randint(-max_offset, max_offset)` and
`np.random.rand()`); the `__debug__` assert that the position's danger
matches is the `Except.error`. -/
def spawn (cfg : RealmCfg) (dnger : ℚ) (g : GGen) :
    Except String ((Int × Int) × GGen) :=
  let border : ℚ := (cfg.MAP_BORDER : ℚ)
  let center : ℚ := (cfg.MAP_CENTER : ℚ)
  let mid : ℚ := ((cfg.MAP_CENTER / 2 : Int) : ℚ)
  let dist : ℚ := dnger * center / 2
  let d := nextInt g
  let offset : ℚ := mid + border + (d.1 : ℚ)
  let rng := nextRat d.2
  let rc : ℚ × ℚ :=
    if rng.1 < 1/4 then (border + dist, offset)
    else if rng.1 < 1/2 then (border + center - dist - 1, offset)
    else if rng.1 < 3/4 then (offset, border + dist)
    else (offset, border + center - dist - 1)
  if dnger = danger cfg rc then .ok ((pyInt rc.1, pyInt rc.2), rng.2)
  else .error "AssertionError: Agent spawned at incorrect radius"

/-- `Realm.reset` (spec-modelled population glue): player 1 at a fixed
spawn, one NPC placed where `combat.spawn(config, 0)` puts it — consuming
the process-global generator — and the clock reset to 0. -/
def realmReset (cfg : RealmCfg) (g : GGen) : Except String RealmSt :=
  match spawn cfg 0 g with
  | .error e => .error e
  | .ok (rc, _) => .ok ⟨[(1, ⟨(0, 0), 10, true⟩)],
      [(-1, ⟨rc, 10, true⟩)], 0⟩

/-- The per-world generator stream obtained from the seed.  Modelled from
the spec: `np.random.default_rng(map_id)` is deterministic in the seed;
the only property used is that equal seeds give equal streams. -/
def seedStream (seed : Nat) : Nat → Nat :=
  fun n => seed + n

def runSteps (cfg : RealmCfg) (wrng : Nat → Nat) :
    Nat → RealmSt → List (List (Int × List QAction)) →
      Except String RealmSt
  | _, s, [] => .ok s
  | k, s, a :: rest =>
      match realmStep cfg wrng k s a [] with
      | .error e => .error e
      | .ok (_, s', k', _) => runSteps cfg wrng k' s' rest

/-- A run: reset from the seed (spawning off the process-global generator
`g`), then step through the submitted actions; the per-world generator is
`seedStream seed`. -/
def runSim (cfg : RealmCfg) (seed : Nat) (g : GGen)
    (ticks : List (List (Int × List QAction))) : Except String RealmSt :=
  match realmReset cfg g with
  | .error e => .error e
  | .ok s₀ => runSteps cfg (seedStream seed) 0 s₀ ticks

/-- Map of the C4 scenario: border 2, center 8, no death fog. -/
def cfgDet : RealmCfg := ⟨none, 0, 0, 2, 8⟩

/-- One possible state of the process-global generator. -/
def gA : GGen := ⟨fun _ => 0, fun _ => 0, 0, 0⟩

/-- Another global-generator state: the first `randint` draw is 1
instead of 0. -/
def gB : GGen := ⟨fun _ => 1, fun _ => 0, 0, 0⟩

/-- A third global-generator state whose first draws agree with `gA`. -/
def gA₂ : GGen := ⟨fun n => if n = 0 then 0 else 99, fun _ => 0, 0, 0⟩

theorem spawn_gA : spawn cfgDet 0 gA = .ok ((2, 6), ⟨gA.ints, gA.rats, 1, 1⟩) := by
  unfold spawn nextInt nextRat
  norm_num [cfgDet, gA, danger, pyInt, Int.floor_ofNat]

theorem spawn_gB : spawn cfgDet 0 gB = .ok ((2, 7), ⟨gB.ints, gB.rats, 1, 1⟩) := by
  unfold spawn nextInt nextRat
  norm_num [cfgDet, gB, danger, pyInt, Int.floor_ofNat]

theorem spawn_gA₂ :
    spawn cfgDet 0 gA₂ = .ok ((2, 6), ⟨gA₂.ints, gA₂.rats, 1, 1⟩) := by
  unfold spawn nextInt nextRat
  norm_num [cfgDet, gA₂, danger, pyInt, Int.floor_ofNat]

theorem reset_gA : realmReset cfgDet gA
    = .ok ⟨[(1, ⟨(0, 0), 10, true⟩)], [(-1, ⟨(2, 6), 10, true⟩)], 0⟩ := by
  unfold realmReset
  rw [spawn_gA]

theorem reset_gB : realmReset cfgDet gB
    = .ok ⟨[(1, ⟨(0, 0), 10, true⟩)], [(-1, ⟨(2, 7), 10, true⟩)], 0⟩ := by
  unfold realmReset
  rw [spawn_gB]

theorem reset_gA₂ : realmReset cfgDet gA₂
    = .ok ⟨[(1, ⟨(0, 0), 10, true⟩)], [(-1, ⟨(2, 6), 10, true⟩)], 0⟩ := by
  unfold realmReset
  rw [spawn_gA₂]

/-- C4 counterexample: two runs from the same world seed (7) with the same
(empty) input actions end with the NPC at different positions, because
`combat.spawn` draws from the process-global `np.random` generator — here
in states `gA` versus `gB` — which the world seed does not determine.  The
resulting states after one `Realm.step` differ. -/
theorem same_seed_runs_differ :
    runSim cfgDet 7 gA [[]]
        = .ok ⟨[(1, ⟨(0, 0), 10, true⟩)], [(-1, ⟨(2, 6), 10, true⟩)], 1⟩ ∧
      runSim cfgDet 7 gB [[]]
        = .ok ⟨[(1, ⟨(0, 0), 10, true⟩)], [(-1, ⟨(2, 7), 10, true⟩)], 1⟩ ∧
      (⟨[(1, ⟨(0, 0), 10, true⟩)], [(-1, ⟨(2, 6), 10, true⟩)], 1⟩ : RealmSt)
        ≠ ⟨[(1, ⟨(0, 0), 10, true⟩)], [(-1, ⟨(2, 7), 10, true⟩)], 1⟩ := by
  refine ⟨?_, ?_, by decide⟩
  · unfold runSim
    rw [reset_gA]
    decide
  · unfold runSim
    rw [reset_gB]
    decide

/-- C4 (amended): given the same world seed and identical inputs, two runs
produce identical results *provided* the process-global generator put the
spawns in the same place at reset; everything after reset — in particular
the same-priority shuffles, which do draw from the per-world seeded
generator — is a function of the seed, the reset state, and the inputs
alone. -/
theorem run_determined_by_seed_and_reset (cfg : RealmCfg) (seed : Nat)
    (g g' : GGen) (acts : List (List (Int × List QAction))) (s₀ : RealmSt)
    (h : realmReset cfg g = .ok s₀) (h' : realmReset cfg g' = .ok s₀) :
    runSim cfg seed g acts = runSim cfg seed g' acts := by
  unfold runSim
  rw [h, h']

/-- C4 witness: distinct global-generator states whose consumed draws
agree produce equal resets, hence equal runs. -/
theorem run_determined_by_seed_and_reset_witness :
    realmReset cfgDet gA
        = .ok ⟨[(1, ⟨(0, 0), 10, true⟩)], [(-1, ⟨(2, 6), 10, true⟩)], 0⟩ ∧
      realmReset cfgDet gA₂
        = .ok ⟨[(1, ⟨(0, 0), 10, true⟩)], [(-1, ⟨(2, 6), 10, true⟩)], 0⟩ ∧
      runSim cfgDet 7 gA [[]] = runSim cfgDet 7 gA₂ [[]] :=
  ⟨reset_gA, reset_gA₂,
    run_determined_by_seed_and_reset cfgDet 7 gA gA₂ [[]]
      ⟨[(1, ⟨(0, 0), 10, true⟩)], [(-1, ⟨(2, 6), 10, true⟩)], 0⟩
      reset_gA reset_gA₂⟩

end NmmoSpec
